import Mathlib

/-!
Shallow embedding of the hexmem memory service core, verified against its
specification.  The embedding translates the TypeScript route handlers and
services into pure Lean functions over an explicit database state:

* `checkDuplicate`      — services/dedup.ts two-stage duplicate detector
* `recall` / `recallCore` — routes/recall.ts hybrid retrieval pipeline
* `postFact`, `postDecision`, `postTask`, `postEvent`, `postProject`
                        — routes/memory.ts direct write handlers
* `postEdge`            — routes/edges.ts edge upsert
* `coreMemoryPatch`     — routes/agents.ts core-memory JSONB merge patch
* `storeExtractedItems` — routes/sessions.ts ingestion storage helper
* `runDecaySweep` / `sweepTable` — services/decay.ts decay engine

External capabilities (the PostgreSQL similarity operators and the embedding
provider) are modelled as parameters: `StoreOps` carries the trigram
similarity and vector cosine distance functions, and an optional `Embedder`
models `getEmbeddingProvider()`; a `none`-returning embedder models an
`embed` call that throws.  Numeric values are modelled as rationals;
timestamps as integers (milliseconds).  Table columns that no verified
operation reads (subject, confidence, severity, priority, ...) are omitted
from the row model; every column read or written by the operations above is
present.
-/

namespace HexMem

/-- JSONB values, used for `core_memory`, edge `metadata`, and related
structures. -/
inductive Json where
  | null : Json
  | bool (b : Bool) : Json
  | num (q : ℚ) : Json
  | str (s : String) : Json
  | arr (elems : List Json) : Json
  | obj (fields : List (String × Json)) : Json

/-- Whether a JSON value is the null literal. -/
def Json.isNull : Json → Bool
  | .null => true
  | _ => false

mutual

/-- PostgreSQL `jsonb_strip_nulls`: deletes all object fields whose value is
null, recursively; null values that are not object fields are untouched. -/
def stripNulls : Json → Json
  | .null => .null
  | .bool b => .bool b
  | .num q => .num q
  | .str s => .str s
  | .arr es => .arr (stripNullsArr es)
  | .obj fs => .obj (stripNullsObj fs)

/-- `jsonb_strip_nulls` mapped over the elements of an array. -/
def stripNullsArr : List Json → List Json
  | [] => []
  | e :: es => stripNulls e :: stripNullsArr es

/-- `jsonb_strip_nulls` on the field list of an object: drop null-valued
fields and recurse into the rest. -/
def stripNullsObj : List (String × Json) → List (String × Json)
  | [] => []
  | (k, v) :: fs =>
      if v.isNull then stripNullsObj fs else (k, stripNulls v) :: stripNullsObj fs

end

/-- PostgreSQL `jsonb || jsonb` on two objects (represented by their field
lists): keys of the right operand win; remaining keys of the left operand are
kept. -/
def objConcat (a b : List (String × Json)) : List (String × Json) :=
  a.filter (fun p => (b.lookup p.1).isNone) ++ b

/-- The core-memory update of `PATCH /api/v1/agents/:id/core-memory`:
`core_memory = jsonb_strip_nulls(core_memory || patch)`, on object values. -/
def coreMemoryPatch (core patch : List (String × Json)) : List (String × Json) :=
  stripNullsObj (objConcat core patch)

/-- Stable insertion step for a descending sort: the inserted element comes
from later in the original list, so it goes after every element with a
strictly larger key and before the first element with a key `≤` its own. -/
def insertDescBy (f : α → ℚ) (a : α) : List α → List α
  | [] => [a]
  | b :: bs => if f a < f b then b :: insertDescBy f a bs else a :: b :: bs

/-- Stable descending sort by a rational key; models both SQL
`ORDER BY ... DESC` and the stable JavaScript
`sort((a, b) => key(b) - key(a))`. -/
def sortDescBy (f : α → ℚ) : List α → List α
  | [] => []
  | a :: as => insertDescBy f a (sortDescBy f as)

/-- Stable insertion step for an ascending sort. -/
def insertAscBy (f : α → ℚ) (a : α) : List α → List α
  | [] => [a]
  | b :: bs => if f b < f a then b :: insertAscBy f a bs else a :: b :: bs

/-- Stable ascending sort by a rational key; models SQL `ORDER BY ...`
ascending. -/
def sortAscBy (f : α → ℚ) : List α → List α
  | [] => []
  | a :: as => insertAscBy f a (sortAscBy f as)

/-- Milliseconds per day, used when translating `INTERVAL '1 day' * n`. -/
def msPerDay : Int := 86400000

/-- The `decay_status` lifecycle column shared by all memory tables. -/
inductive DecayStatus where
  | active
  | cooling
  | archived
deriving DecidableEq, Repr

/-- A row of one of the five memory tables.  A single row type is used for
all tables; each table reads only the columns relevant to it (for events the
`occurredAt` column plays the role the source gives to `occurred_at`).
Columns never read by a verified operation are omitted. -/
structure MemRow where
  id : String
  agentId : String
  /-- `content` column (facts, session_messages). -/
  content : String := ""
  /-- `title` column (decisions, tasks, events). -/
  title : String := ""
  /-- `decision` column (decisions). -/
  decision : String := ""
  embedding : Option (List ℚ) := none
  decayStatus : DecayStatus := .active
  accessCount : Int := 0
  lastAccessedAt : Option Int := none
  createdAt : Int := 0
  updatedAt : Int := 0
  occurredAt : Int := 0
deriving DecidableEq, Repr

/-- A row of the `projects` table (only the columns written by
`POST /api/v1/projects` that the verified operations mention). -/
structure ProjectRow where
  id : String
  agentId : String
  slug : String
  name : String
  embedding : Option (List ℚ) := none
deriving DecidableEq, Repr

/-- A row of the `memory_edges` table. -/
structure Edge where
  id : String
  agentId : String
  sourceType : String
  sourceId : String
  targetType : String
  targetId : String
  relation : String
  weight : ℚ := 1
  metadata : Json := .obj []

/-- The five memory tables that participate in recall, dedup and decay
(`RECALL_TABLES` in routes/recall.ts, `MEMORY_TABLES` in services/decay.ts,
the keys of `CONTENT_COLUMN` in services/dedup.ts). -/
inductive MemTable where
  | sessionMessages
  | facts
  | decisions
  | tasks
  | events
deriving DecidableEq, Repr

/-- The database state: the five memory tables, projects, the edge graph,
and a counter supplying fresh row ids (modelling `gen_random_uuid()`). -/
structure DB where
  sessionMessages : List MemRow := []
  facts : List MemRow := []
  decisions : List MemRow := []
  tasks : List MemRow := []
  events : List MemRow := []
  projects : List ProjectRow := []
  edges : List Edge := []
  nextId : Nat := 0

/-- Rows of a given memory table. -/
def DB.rowsOf (db : DB) : MemTable → List MemRow
  | .sessionMessages => db.sessionMessages
  | .facts => db.facts
  | .decisions => db.decisions
  | .tasks => db.tasks
  | .events => db.events

/-- Replace the rows of a given memory table. -/
def DB.setRows (db : DB) : MemTable → List MemRow → DB
  | .sessionMessages, rs => { db with sessionMessages := rs }
  | .facts, rs => { db with facts := rs }
  | .decisions, rs => { db with decisions := rs }
  | .tasks, rs => { db with tasks := rs }
  | .events, rs => { db with events := rs }

/-- The `type` string attached to results from each table
(`RECALL_TABLES[..].type`, `TABLE_TO_TYPE` in services/decay.ts). -/
def typeNameOf : MemTable → String
  | .sessionMessages => "session_message"
  | .facts => "fact"
  | .decisions => "decision"
  | .tasks => "task"
  | .events => "event"

/-- The canonical content column of each table: `contentCol` in
`RECALL_TABLES` (routes/recall.ts) and `CONTENT_COLUMN` (services/dedup.ts)
carry the same mapping — content for session_messages and facts, title for
decisions, tasks and events. -/
def contentColOf : MemTable → MemRow → String
  | .sessionMessages, r => r.content
  | .facts, r => r.content
  | .decisions, r => r.title
  | .tasks, r => r.title
  | .events, r => r.title

/-- The `timeCol` of `RECALL_TABLES`: `occurred_at` for events, `created_at`
for the other tables. -/
def recallTimeOf : MemTable → MemRow → Int
  | .events, r => r.occurredAt
  | _, r => r.createdAt

/-- `TABLE_TIMESTAMPS[..].created` in services/decay.ts. -/
def decayCreatedCol : MemTable → MemRow → Int
  | .events, r => r.occurredAt
  | _, r => r.createdAt

/-- `TABLE_TIMESTAMPS[..].updated` in services/decay.ts: `updated_at` for
facts and tasks, `created_at` for decisions and session_messages,
`occurred_at` for events. -/
def decayUpdatedCol : MemTable → MemRow → Int
  | .facts, r => r.updatedAt
  | .tasks, r => r.updatedAt
  | .decisions, r => r.createdAt
  | .events, r => r.occurredAt
  | .sessionMessages, r => r.createdAt

/-- The table list in `RECALL_TABLES` order. -/
def recallTables : List MemTable :=
  [.sessionMessages, .facts, .decisions, .tasks, .events]

/-- `RECALL_TABLES.find(t => t.type === s)`. -/
def tableOfTypeName (s : String) : Option MemTable :=
  recallTables.find? (fun t => typeNameOf t = s)

/-- The store capabilities delegated to PostgreSQL: `similarity(text, text)`
from pg_trgm and the pgvector cosine distance operator. -/
structure StoreOps where
  trigramSim : String → String → ℚ
  cosineDist : List ℚ → List ℚ → ℚ

/-- The embedding provider capability; `embed` returns `none` when the
provider call throws. -/
structure Embedder where
  embed : String → Option (List ℚ)

/-- The `embedText` helper of routes/memory.ts (and the inline embedding
steps of routes/sessions.ts and routes/recall.ts): embed if a provider is
configured, swallowing failure. -/
def tryEmbed (provider : Option Embedder) (text : String) : Option (List ℚ) :=
  match provider with
  | none => none
  | some e => e.embed text

/-- Fresh row id from the id counter. -/
def freshId (n : Nat) : String := "m" ++ toString n

/-! ## Dedup (services/dedup.ts) -/

/-- The result row of `checkDuplicate`; `syntactic` is true for a stage-1
(trigram) match and false for a stage-2 (semantic) match. -/
structure DuplicateMatch where
  id : String
  similarity : ℚ
  syntactic : Bool
deriving DecidableEq, Repr

/-- `TRIGRAM_THRESHOLD` in services/dedup.ts. -/
def TRIGRAM_THRESHOLD : ℚ := mkRat 6 10

/-- `SEMANTIC_THRESHOLD` in services/dedup.ts. -/
def SEMANTIC_THRESHOLD : ℚ := mkRat 92 100

/-- Semantic similarity of a row against a query vector, as computed by
`1 - (embedding <=> query)`. -/
def rowVectorSim (ops : StoreOps) (q : List ℚ) (r : MemRow) : ℚ :=
  match r.embedding with
  | some e => 1 - ops.cosineDist e q
  | none => 0

/-- `checkDuplicate(table, agentId, content)`: stage 1 selects the top row of
the table by trigram similarity of the canonical content column against the
candidate, over active same-agent rows with similarity strictly above
`TRIGRAM_THRESHOLD`; if none, stage 2 embeds the candidate and selects the
top row by cosine similarity over active same-agent rows with a non-null
embedding and similarity strictly above `SEMANTIC_THRESHOLD`. -/
def checkDuplicate (ops : StoreOps) (provider : Option Embedder) (db : DB)
    (t : MemTable) (agentId : String) (content : String) : Option DuplicateMatch :=
  let sim1 := fun r => ops.trigramSim (contentColOf t r) content
  let cands1 := (db.rowsOf t).filter (fun r =>
    decide (r.agentId = agentId ∧ r.decayStatus = .active ∧ TRIGRAM_THRESHOLD < sim1 r))
  match (sortDescBy sim1 cands1).head? with
  | some r => some ⟨r.id, sim1 r, true⟩
  | none =>
    match provider with
    | none => none
    | some emb =>
      match emb.embed content with
      | none => none
      | some q =>
        let sim2 := rowVectorSim ops q
        let cands2 := (db.rowsOf t).filter (fun r =>
          decide (r.agentId = agentId ∧ r.embedding.isSome ∧ r.decayStatus = .active ∧
            SEMANTIC_THRESHOLD < sim2 r))
        match (sortDescBy sim2 cands2).head? with
        | some r => some ⟨r.id, sim2 r, false⟩
        | none => none

/-! ## Direct write handlers (routes/memory.ts) -/

/-- The observable outcome of a direct POST: 201 with the new row id, 409
with the duplicate's id and similarity, or 400. -/
inductive PostResult where
  | created (id : String)
  | conflict (existingId : String) (similarity : ℚ)
  | badRequest (msg : String)
deriving DecidableEq, Repr

/-- Body of `POST /api/v1/facts` (fields the handler's control flow and
canonical columns use). -/
structure FactBody where
  agentId : String
  content : String
deriving DecidableEq, Repr

/-- Body of `POST /api/v1/decisions`. -/
structure DecisionBody where
  agentId : String
  title : String
  decision : String
deriving DecidableEq, Repr

/-- Body of `POST /api/v1/tasks`. -/
structure TaskBody where
  agentId : String
  title : String
  description : Option String := none
deriving DecidableEq, Repr

/-- Body of `POST /api/v1/events`. -/
structure EventBody where
  agentId : String
  title : String
  eventType : String
  description : Option String := none
  occurredAt : Option Int := none
deriving DecidableEq, Repr

/-- Body of `POST /api/v1/projects`. -/
structure ProjectBody where
  agentId : String
  name : String
  description : Option String := none
deriving DecidableEq, Repr

/-- The `title + (description ? ": " + description : "")` embedding text used
by the task, event and project handlers. -/
def titleWithDescription (title : String) (description : Option String) : String :=
  title ++ (match description with
    | some d => ": " ++ d
    | none => "")

/-- `POST /api/v1/facts`: validate, run `checkDuplicate` on the content, and
insert only when no duplicate is found. -/
def postFact (ops : StoreOps) (provider : Option Embedder) (db : DB)
    (b : FactBody) : PostResult × DB :=
  if b.agentId = "" ∨ b.content = "" then
    (.badRequest "agent_id and content are required", db)
  else
    match checkDuplicate ops provider db .facts b.agentId b.content with
    | some dup => (.conflict dup.id dup.similarity, db)
    | none =>
        let row : MemRow :=
          { id := freshId db.nextId, agentId := b.agentId, content := b.content,
            embedding := tryEmbed provider b.content }
        (.created row.id, { db with facts := db.facts ++ [row], nextId := db.nextId + 1 })

/-- `POST /api/v1/decisions`: validate, run `checkDuplicate` on
`title ++ ": " ++ decision`, and insert only when no duplicate is found. -/
def postDecision (ops : StoreOps) (provider : Option Embedder) (db : DB)
    (b : DecisionBody) : PostResult × DB :=
  if b.agentId = "" ∨ b.title = "" ∨ b.decision = "" then
    (.badRequest "agent_id, title, and decision are required", db)
  else
    match checkDuplicate ops provider db .decisions b.agentId (b.title ++ ": " ++ b.decision) with
    | some dup => (.conflict dup.id dup.similarity, db)
    | none =>
        let row : MemRow :=
          { id := freshId db.nextId, agentId := b.agentId, title := b.title,
            decision := b.decision,
            embedding := tryEmbed provider (b.title ++ ": " ++ b.decision) }
        (.created row.id, { db with decisions := db.decisions ++ [row], nextId := db.nextId + 1 })

/-- `POST /api/v1/tasks`: validate, run `checkDuplicate` on the title, and
insert only when no duplicate is found. -/
def postTask (ops : StoreOps) (provider : Option Embedder) (db : DB)
    (b : TaskBody) : PostResult × DB :=
  if b.agentId = "" ∨ b.title = "" then
    (.badRequest "agent_id and title are required", db)
  else
    match checkDuplicate ops provider db .tasks b.agentId b.title with
    | some dup => (.conflict dup.id dup.similarity, db)
    | none =>
        let row : MemRow :=
          { id := freshId db.nextId, agentId := b.agentId, title := b.title,
            embedding := tryEmbed provider (titleWithDescription b.title b.description) }
        (.created row.id, { db with tasks := db.tasks ++ [row], nextId := db.nextId + 1 })

/-- `POST /api/v1/events`: validate and insert.  The handler performs no
dedup check. -/
def postEvent (provider : Option Embedder) (db : DB) (b : EventBody)
    (now : Int) : PostResult × DB :=
  if b.agentId = "" ∨ b.title = "" ∨ b.eventType = "" then
    (.badRequest "agent_id, title, and event_type are required", db)
  else
    let row : MemRow :=
      { id := freshId db.nextId, agentId := b.agentId, title := b.title,
        occurredAt := b.occurredAt.getD now,
        embedding := tryEmbed provider (titleWithDescription b.title b.description) }
    (.created row.id, { db with events := db.events ++ [row], nextId := db.nextId + 1 })

/-- Whether a character survives the project slug character class
`[a-z0-9]`. -/
def isSlugChar (c : Char) : Bool :=
  ('a' ≤ c ∧ c ≤ 'z') ∨ ('0' ≤ c ∧ c ≤ '9')

/-- Replace each maximal run of characters outside `[a-z0-9]` with a single
dash (the `replace(/[^a-z0-9]+/g, '-')` step); the Boolean tracks whether the
previous character was part of such a run. -/
def collapseNonSlug : Bool → List Char → List Char
  | _, [] => []
  | prevDash, c :: rest =>
      if isSlugChar c then c :: collapseNonSlug false rest
      else if prevDash then collapseNonSlug true rest
      else '-' :: collapseNonSlug true rest

/-- Project slug derivation:
`name.toLowerCase().replace(/[^a-z0-9]+/g, '-')` followed by stripping one
leading and one trailing dash. -/
def slugify (name : String) : String :=
  let collapsed := collapseNonSlug false name.toLower.toList
  let noLead := match collapsed with
    | '-' :: rest => rest
    | l => l
  let noTrail := match noLead.reverse with
    | '-' :: rest => rest.reverse
    | _ => noLead
  String.mk noTrail

/-- `POST /api/v1/projects`: validate, derive the slug, and insert.  The
handler performs no dedup check. -/
def postProject (provider : Option Embedder) (db : DB)
    (b : ProjectBody) : PostResult × DB :=
  if b.agentId = "" ∨ b.name = "" then
    (.badRequest "agent_id and name are required", db)
  else
    let row : ProjectRow :=
      { id := freshId db.nextId, agentId := b.agentId, slug := slugify b.name,
        name := b.name,
        embedding := tryEmbed provider (titleWithDescription b.name b.description) }
    (.created row.id, { db with projects := db.projects ++ [row], nextId := db.nextId + 1 })

/-! ## Recall (routes/recall.ts) -/

/-- The per-result signal record of the recall response. -/
structure Signals where
  semantic : Option ℚ := none
  keyword : Option ℚ := none
  recency : Option ℚ := none
  graphBoost : Option ℚ := none
deriving DecidableEq, Repr

/-- A related item produced by the one-hop expansion: score and graph_boost
are the edge weight; metadata records the relation and direction. -/
structure RelatedResult where
  id : String
  type : String
  content : String
  score : ℚ
  signals : Signals
  relation : String
  direction : String
  createdAt : Int
deriving DecidableEq, Repr

/-- A top-level recall result.  The source type is recursive, but expansion
depth is exactly one, so the nested level is the flat `RelatedResult`. -/
structure RecallResult where
  id : String
  type : String
  content : String
  score : ℚ
  signals : Signals
  createdAt : Int
  related : Option (List RelatedResult) := none
deriving DecidableEq, Repr

/-- The request body of `POST /api/v1/recall`, with the handler's default
values. -/
structure RecallParams where
  query : String
  agentId : String
  types : Option (List String) := none
  limit : Nat := 20
  includeRelated : Bool := true
  recencyWeight : ℚ := mkRat 1 10
  semanticWeight : ℚ := mkRat 7 10
  keywordWeight : ℚ := mkRat 2 10

/-- The recall response: results, total, echoed query, and the weights
(semantic, keyword, recency). -/
structure RecallResponse where
  results : List RecallResult
  total : Nat
  query : String
  weights : ℚ × ℚ × ℚ
deriving DecidableEq, Repr

/-- `tablesToSearch`: all of `RECALL_TABLES` unless a non-empty `types`
whitelist is given (`!types || types.length === 0 || types.includes(t.type)`). -/
def tablesToSearch (types : Option (List String)) : List MemTable :=
  recallTables.filter (fun t =>
    match types with
    | none => true
    | some ts => ts.isEmpty || ts.contains (typeNameOf t))

/-- A row as returned by one retrieval arm: id, the selected content column,
the recorded similarity, and the selected time column. -/
structure ArmRow where
  id : String
  content : String
  sim : ℚ
  createdAt : Int
deriving DecidableEq, Repr

/-- The semantic arm for one table: active same-agent rows with a non-null
embedding, ordered by ascending cosine distance, limited, with
`similarity = 1 - distance`. -/
def semanticArm (ops : StoreOps) (q : List ℚ) (db : DB) (t : MemTable)
    (agentId : String) (lim : Nat) : List ArmRow :=
  let dist := fun (r : MemRow) => ops.cosineDist (r.embedding.getD []) q
  let cands := (db.rowsOf t).filter (fun r =>
    decide (r.agentId = agentId ∧ r.embedding.isSome ∧ r.decayStatus = .active))
  ((sortAscBy dist cands).take lim).map (fun r =>
    { id := r.id, content := contentColOf t r, sim := 1 - dist r,
      createdAt := recallTimeOf t r })

/-- The keyword arm for one table: active same-agent rows with trigram
similarity of the content column against the query strictly above 0.1,
ordered by similarity descending, limited. -/
def keywordArm (ops : StoreOps) (db : DB) (t : MemTable) (agentId : String)
    (queryText : String) (lim : Nat) : List ArmRow :=
  let sim := fun (r : MemRow) => ops.trigramSim (contentColOf t r) queryText
  let cands := (db.rowsOf t).filter (fun r =>
    decide (r.agentId = agentId ∧ r.decayStatus = .active ∧ mkRat 1 10 < sim r))
  ((sortDescBy sim cands).take lim).map (fun r =>
    { id := r.id, content := contentColOf t r, sim := sim r,
      createdAt := recallTimeOf t r })

/-- Merge one arm's rows into the accumulated results: an id already present
has the corresponding signal field set, a new id is appended as a fresh
result with score 0. -/
def mergeArm (upd : Signals → ℚ → Signals) (tn : String) :
    List RecallResult → List ArmRow → List RecallResult
  | acc, [] => acc
  | acc, a :: rest =>
      let acc' :=
        if acc.any (fun x => x.id == a.id) then
          acc.map (fun x =>
            if x.id == a.id then { x with signals := upd x.signals a.sim } else x)
        else
          acc ++ [{ id := a.id, type := tn, content := a.content, score := 0,
                    signals := upd {} a.sim, createdAt := a.createdAt }]
      mergeArm upd tn acc' rest

/-- Signal update used when merging the semantic arm. -/
def setSemantic (s : Signals) (v : ℚ) : Signals := { s with semantic := some v }

/-- Signal update used when merging the keyword arm. -/
def setKeyword (s : Signals) (v : ℚ) : Signals := { s with keyword := some v }

/-- Step 2 of recall: per table, run the semantic arm (only when the query
embedding succeeded) and then the keyword arm, merging into one list. -/
def recallCandidates (ops : StoreOps) (qe : Option (List ℚ)) (db : DB)
    (agentId queryText : String) (tables : List MemTable) (lim : Nat) :
    List RecallResult :=
  tables.foldl (fun acc t =>
    let acc1 := match qe with
      | some q => mergeArm setSemantic (typeNameOf t) acc (semanticArm ops q db t agentId lim)
      | none => acc
    mergeArm setKeyword (typeNameOf t) acc1 (keywordArm ops db t agentId queryText lim)) []

/-- `maxAge`: 90 days in milliseconds. -/
def maxAgeMs : Int := 90 * 24 * 60 * 60 * 1000

/-- Step 3: attach the recency signal
`max(0, 1 - age/maxAge)` with `age = now - created_at`. -/
def withRecency (now : Int) (rs : List RecallResult) : List RecallResult :=
  rs.map (fun r =>
    { r with signals :=
        { r.signals with recency := some (max 0 (1 - Rat.divInt (now - r.createdAt) maxAgeMs)) } })

/-- Step 4's weighted combination:
`(semantic|0)·ws + (keyword|0)·wk + (recency|0)·wr + (graph_boost|0)·0.1`. -/
def combinedScore (ws wk wr : ℚ) (s : Signals) : ℚ :=
  s.semantic.getD 0 * ws + s.keyword.getD 0 * wk + s.recency.getD 0 * wr +
    s.graphBoost.getD 0 * mkRat 1 10

/-- Step 4: recompute every result's score from its signals. -/
def withScores (ws wk wr : ℚ) (rs : List RecallResult) : List RecallResult :=
  rs.map (fun r => { r with score := combinedScore ws wk wr r.signals })

/-- `getRelatedItems`: edges incident to the node (outgoing then incoming),
resolved against `RECALL_TABLES`; unknown neighbor types and missing rows are
skipped; each hit carries `score = weight` and `graph_boost = weight`. -/
def getRelatedItems (db : DB) (itemId itemType agentId : String) :
    List RelatedResult :=
  let outgoing := (db.edges.filter (fun e =>
      decide (e.sourceType = itemType ∧ e.sourceId = itemId ∧ e.agentId = agentId))).map
    (fun e => (e, "outgoing", e.targetType, e.targetId))
  let incoming := (db.edges.filter (fun e =>
      decide (e.targetType = itemType ∧ e.targetId = itemId ∧ e.agentId = agentId))).map
    (fun e => (e, "incoming", e.sourceType, e.sourceId))
  (outgoing ++ incoming).filterMap (fun p =>
    match tableOfTypeName p.2.2.1 with
    | none => none
    | some t =>
        match (db.rowsOf t).find? (fun r => r.id == p.2.2.2) with
        | none => none
        | some row => some
            { id := row.id, type := p.2.2.1, content := contentColOf t row,
              score := p.1.weight, signals := { graphBoost := some p.1.weight },
              relation := p.1.relation, direction := p.2.1,
              createdAt := recallTimeOf t row })

/-- Step 5: the one-hop expansion is applied to the first five top results
only. -/
def expandTop (db : DB) (agentId : String) (rs : List RecallResult) :
    List RecallResult :=
  (rs.take 5).map (fun r => { r with related := some (getRelatedItems db r.id r.type agentId) })
    ++ rs.drop 5

/-- Step 1 of recall: embed the query when a provider is configured,
falling back to keyword-only on failure. -/
def embedQuery (provider : Option Embedder) (q : String) : Option (List ℚ) :=
  match provider with
  | none => none
  | some e => e.embed q

/-- The recall pipeline after validation and query embedding: candidates,
recency, rerank, sort, top-K cut, optional expansion, response assembly. -/
def recallCore (ops : StoreOps) (qe : Option (List ℚ)) (db : DB)
    (tables : List MemTable) (agentId queryText : String) (lim : Nat)
    (includeRelated : Bool) (ws wk wr : ℚ) (now : Int) : RecallResponse :=
  let cands := recallCandidates ops qe db agentId queryText tables lim
  let scored := withScores ws wk wr (withRecency now cands)
  let top := (sortDescBy (fun r => r.score) scored).take lim
  let top2 := if includeRelated ∧ 0 < top.length then expandTop db agentId top else top
  { results := top2, total := top2.length, query := queryText,
    weights := (ws, wk, wr) }

/-- `POST /api/v1/recall`: missing query or agent_id is a 400; otherwise the
pipeline runs with the query embedding of step 1.  (Named `recallHandler`
because `recall` is a reserved word in the proof environment.) -/
def recallHandler (ops : StoreOps) (provider : Option Embedder) (db : DB)
    (p : RecallParams) (now : Int) : Except String RecallResponse :=
  if p.query = "" ∨ p.agentId = "" then
    .error "query and agent_id are required"
  else
    .ok (recallCore ops (embedQuery provider p.query) db (tablesToSearch p.types)
      p.agentId p.query p.limit p.includeRelated
      p.semanticWeight p.keywordWeight p.recencyWeight now)

/-! ## Edge graph (routes/edges.ts) -/

/-- The five-tuple on which `memory_edges` is unique. -/
def edgeTuple (e : Edge) : String × String × String × String × String :=
  (e.sourceType, e.sourceId, e.targetType, e.targetId, e.relation)

/-- Body of `POST /api/v1/edges`. -/
structure EdgeBody where
  agentId : String
  sourceType : String
  sourceId : String
  targetType : String
  targetId : String
  relation : String
  weight : Option ℚ := none
  metadata : Option Json := none

/-- The five-tuple of an edge body. -/
def bodyTuple (b : EdgeBody) : String × String × String × String × String :=
  (b.sourceType, b.sourceId, b.targetType, b.targetId, b.relation)

/-- `POST /api/v1/edges`: validate, then
`INSERT ... ON CONFLICT (source_type, source_id, target_type, target_id,
relation) DO UPDATE SET weight = EXCLUDED.weight, metadata =
EXCLUDED.metadata RETURNING *` — on conflict the existing row keeps its id
and receives the new weight and metadata; otherwise a fresh row is
appended.  Either way the handler replies 201 with the returned row. -/
def postEdge (db : DB) (b : EdgeBody) : PostResult × DB :=
  if b.agentId = "" ∨ b.sourceType = "" ∨ b.sourceId = "" ∨ b.targetType = "" ∨
      b.targetId = "" ∨ b.relation = "" then
    (.badRequest "agent_id, source_type, source_id, target_type, target_id, and relation are required", db)
  else
    match db.edges.find? (fun e => decide (edgeTuple e = bodyTuple b)) with
    | some e =>
        (.created e.id,
          { db with edges := db.edges.map (fun x =>
              if edgeTuple x = bodyTuple b then
                { x with weight := b.weight.getD 1, metadata := b.metadata.getD (.obj []) }
              else x) })
    | none =>
        let e : Edge :=
          { id := freshId db.nextId, agentId := b.agentId,
            sourceType := b.sourceType, sourceId := b.sourceId,
            targetType := b.targetType, targetId := b.targetId,
            relation := b.relation, weight := b.weight.getD 1,
            metadata := b.metadata.getD (.obj []) }
        (.created e.id, { db with edges := db.edges ++ [e], nextId := db.nextId + 1 })

/-! ## Ingestion storage (routes/sessions.ts, storeExtractedItems) -/

/-- `INSERT INTO memory_edges ... ON CONFLICT DO NOTHING`: append the edge
only when no edge with the same five-tuple exists. -/
def DB.addEdgeIfAbsent (db : DB) (agentId st sid tt tid rel : String) : DB :=
  if db.edges.any (fun x => decide (edgeTuple x = (st, sid, tt, tid, rel))) then db
  else
    { db with
      edges := db.edges ++
        [{ id := freshId db.nextId, agentId := agentId, sourceType := st,
           sourceId := sid, targetType := tt, targetId := tid, relation := rel }],
      nextId := db.nextId + 1 }

/-- An extracted fact (services/extraction.ts output shape, the fields the
storage loop uses). -/
structure ExtractedFact where
  content : String
deriving DecidableEq, Repr

/-- An extracted decision. -/
structure ExtractedDecision where
  title : String
  decision : String
deriving DecidableEq, Repr

/-- An extracted task. -/
structure ExtractedTask where
  title : String
  description : Option String := none
deriving DecidableEq, Repr

/-- An extracted event. -/
structure ExtractedEvent where
  title : String
  eventType : String
  description : Option String := none
deriving DecidableEq, Repr

/-- The extractor's deterministic return shape. -/
structure ExtractionResult where
  facts : List ExtractedFact := []
  decisions : List ExtractedDecision := []
  tasks : List ExtractedTask := []
  events : List ExtractedEvent := []
deriving DecidableEq, Repr

/-- The id lists returned by `storeExtractedItems`. -/
structure StoredItems where
  factIds : List String := []
  decisionIds : List String := []
  taskIds : List String := []
  eventIds : List String := []
deriving DecidableEq, Repr

/-- The facts loop of `storeExtractedItems`: best-effort embed, insert the
row, then insert the `fact —derived_from→ session` edge idempotently. -/
def storeFactsLoop (agentId sessionId : String) (provider : Option Embedder) :
    List ExtractedFact → DB → List String × DB
  | [], db => ([], db)
  | f :: fs, db =>
      let id := freshId db.nextId
      let row : MemRow :=
        { id := id, agentId := agentId, content := f.content,
          embedding := tryEmbed provider f.content }
      let db1 := { db with facts := db.facts ++ [row], nextId := db.nextId + 1 }
      let db2 := db1.addEdgeIfAbsent agentId "fact" id "session" sessionId "derived_from"
      let (ids, db3) := storeFactsLoop agentId sessionId provider fs db2
      (id :: ids, db3)

/-- The decisions loop of `storeExtractedItems`: embed `title: decision`,
insert the row, then insert the `decision —decided_in→ session` edge. -/
def storeDecisionsLoop (agentId sessionId : String) (provider : Option Embedder) :
    List ExtractedDecision → DB → List String × DB
  | [], db => ([], db)
  | d :: ds, db =>
      let id := freshId db.nextId
      let row : MemRow :=
        { id := id, agentId := agentId, title := d.title, decision := d.decision,
          embedding := tryEmbed provider (d.title ++ ": " ++ d.decision) }
      let db1 := { db with decisions := db.decisions ++ [row], nextId := db.nextId + 1 }
      let db2 := db1.addEdgeIfAbsent agentId "decision" id "session" sessionId "decided_in"
      let (ids, db3) := storeDecisionsLoop agentId sessionId provider ds db2
      (id :: ids, db3)

/-- The tasks loop of `storeExtractedItems`. -/
def storeTasksLoop (agentId sessionId : String) (provider : Option Embedder) :
    List ExtractedTask → DB → List String × DB
  | [], db => ([], db)
  | t :: ts, db =>
      let id := freshId db.nextId
      let row : MemRow :=
        { id := id, agentId := agentId, title := t.title,
          embedding := tryEmbed provider (titleWithDescription t.title t.description) }
      let db1 := { db with tasks := db.tasks ++ [row], nextId := db.nextId + 1 }
      let db2 := db1.addEdgeIfAbsent agentId "task" id "session" sessionId "derived_from"
      let (ids, db3) := storeTasksLoop agentId sessionId provider ts db2
      (id :: ids, db3)

/-- The events loop of `storeExtractedItems`. -/
def storeEventsLoop (agentId sessionId : String) (provider : Option Embedder) :
    List ExtractedEvent → DB → List String × DB
  | [], db => ([], db)
  | e :: es, db =>
      let id := freshId db.nextId
      let row : MemRow :=
        { id := id, agentId := agentId, title := e.title,
          embedding := tryEmbed provider (titleWithDescription e.title e.description) }
      let db1 := { db with events := db.events ++ [row], nextId := db.nextId + 1 }
      let db2 := db1.addEdgeIfAbsent agentId "event" id "session" sessionId "derived_from"
      let (ids, db3) := storeEventsLoop agentId sessionId provider es db2
      (id :: ids, db3)

/-- `storeExtractedItems(agentId, sessionId, extracted, provider)`: store
facts, decisions, tasks and events in order, creating a derivation edge to
the session for each stored item. -/
def storeExtractedItems (agentId sessionId : String) (provider : Option Embedder)
    (extracted : ExtractionResult) (db : DB) : StoredItems × DB :=
  let (fids, db1) := storeFactsLoop agentId sessionId provider extracted.facts db
  let (dids, db2) := storeDecisionsLoop agentId sessionId provider extracted.decisions db1
  let (tids, db3) := storeTasksLoop agentId sessionId provider extracted.tasks db2
  let (eids, db4) := storeEventsLoop agentId sessionId provider extracted.events db3
  (⟨fids, dids, tids, eids⟩, db4)

/-! ## Decay engine (services/decay.ts) -/

/-- A row of `decay_policies`. -/
structure DecayPolicy where
  agentId : Option String := none
  memoryType : String
  ttlDays : Option Int := none
  minAccesses : Int := 0
  accessBoost : Bool := true
deriving DecidableEq, Repr

/-- Policy resolution:
`WHERE memory_type = $1 AND (agent_id = $2 OR agent_id IS NULL) ORDER BY
agent_id NULLS LAST LIMIT 1` — an agent-specific row wins over the global
default; with no agent scope only global rows match (`agent_id = NULL` is
never true in SQL). -/
def resolvePolicy (policies : List DecayPolicy) (memType : String)
    (agentId : Option String) : Option DecayPolicy :=
  let matching := policies.filter (fun p =>
    decide (p.memoryType = memType ∧
      (p.agentId = none ∨ (agentId ≠ none ∧ p.agentId = agentId))))
  match matching.filter (fun p => p.agentId.isSome) with
  | p :: _ => some p
  | [] => matching.head?

/-- Whether a row is within an agent-scoped sweep (`AND agent_id = $n`,
absent for an unscoped sweep). -/
def agentScoped (agentId : Option String) (r : MemRow) : Bool :=
  match agentId with
  | some a => r.agentId == a
  | none => true

/-- The WHERE clause of the active→cooling UPDATE:
`decay_status = 'active' AND access_count < min_accesses AND
(last_accessed_at IS NULL AND created < now - ttl days OR
 last_accessed_at < now - ttl days)`. -/
def coolCandidate (now : Int) (agentId : Option String) (minAcc ttl : Int)
    (t : MemTable) (r : MemRow) : Bool :=
  r.decayStatus == .active && agentScoped agentId r &&
    decide (r.accessCount < minAcc) &&
    ((r.lastAccessedAt.isNone && decide (decayCreatedCol t r < now - ttl * msPerDay)) ||
     (match r.lastAccessedAt with
      | some l => decide (l < now - ttl * msPerDay)
      | none => false))

/-- The per-row effect of the active→cooling UPDATE. -/
def sweepCoolStep (now : Int) (agentId : Option String) (minAcc ttl : Int)
    (t : MemTable) (r : MemRow) : MemRow :=
  if coolCandidate now agentId minAcc ttl t r then { r with decayStatus := .cooling } else r

/-- The active→cooling UPDATE over a table. -/
def sweepCoolPhase (now : Int) (agentId : Option String) (minAcc ttl : Int)
    (t : MemTable) (rows : List MemRow) : List MemRow :=
  rows.map (sweepCoolStep now agentId minAcc ttl t)

/-- The WHERE clause of the cooling→archived UPDATE:
`decay_status = 'cooling' AND updated < now - 30 days`. -/
def archiveCandidate (now : Int) (agentId : Option String) (t : MemTable)
    (r : MemRow) : Bool :=
  r.decayStatus == .cooling && agentScoped agentId r &&
    decide (decayUpdatedCol t r < now - 30 * msPerDay)

/-- The cooling→archived UPDATE over a table. -/
def sweepArchivePhase (now : Int) (agentId : Option String) (t : MemTable)
    (rows : List MemRow) : List MemRow :=
  rows.map (fun r =>
    if archiveCandidate now agentId t r then { r with decayStatus := .archived } else r)

/-- The sweep statistics record. -/
structure DecayStats where
  transitionedToCooling : Nat := 0
  transitionedToArchived : Nat := 0
  immuneItems : Nat := 0
deriving DecidableEq, Repr

/-- One table's share of `runDecaySweep`: resolve the policy (skipping the
table when there is none or its `ttl_days` is null), run the two transition
updates, and count immune active rows (`access_count >= min_accesses`). -/
def sweepTable (policies : List DecayPolicy) (agentId : Option String)
    (now : Int) (t : MemTable) (rows : List MemRow) : DecayStats × List MemRow :=
  match resolvePolicy policies (typeNameOf t) agentId with
  | none => ({}, rows)
  | some p =>
    match p.ttlDays with
    | none => ({}, rows)
    | some ttl =>
        let cooled := (rows.filter (coolCandidate now agentId p.minAccesses ttl t)).length
        let rows1 := sweepCoolPhase now agentId p.minAccesses ttl t rows
        let archived := (rows1.filter (archiveCandidate now agentId t)).length
        let rows2 := sweepArchivePhase now agentId t rows1
        let immune := (rows2.filter (fun r =>
          r.decayStatus == .active && agentScoped agentId r &&
            decide (p.minAccesses ≤ r.accessCount))).length
        ({ transitionedToCooling := cooled, transitionedToArchived := archived,
           immuneItems := immune }, rows2)

/-- `MEMORY_TABLES` order in services/decay.ts. -/
def decayTables : List MemTable :=
  [.facts, .decisions, .tasks, .events, .sessionMessages]

/-- `runDecaySweep(agentId?)`: sweep every memory table, accumulating
statistics. -/
def runDecaySweep (policies : List DecayPolicy) (agentId : Option String)
    (now : Int) (db : DB) : DecayStats × DB :=
  decayTables.foldl (fun acc t =>
    let (s, rows) := sweepTable policies agentId now t (acc.2.rowsOf t)
    ({ transitionedToCooling := acc.1.transitionedToCooling + s.transitionedToCooling,
       transitionedToArchived := acc.1.transitionedToArchived + s.transitionedToArchived,
       immuneItems := acc.1.immuneItems + s.immuneItems },
     acc.2.setRows t rows)) ({}, db)

/-! ## Concrete instances used to evaluate the definitions -/

/-- Store ops whose trigram similarity is constantly 0.6 (the boundary
value). -/
def opsConstSix : StoreOps := ⟨fun _ _ => mkRat 6 10, fun _ _ => 0⟩

/-- Store ops whose trigram similarity is 1 exactly when the stored-side
text is `"T"`, and 0 otherwise. -/
def opsTitleProbe : StoreOps := ⟨fun s _ => if s = "T" then 1 else 0, fun _ _ => 0⟩

/-- Store ops whose trigram similarity is constantly 1. -/
def opsAlwaysOne : StoreOps := ⟨fun _ _ => 1, fun _ _ => 0⟩

/-- An active fact of agent `a` with content `x`. -/
def rowFactX : MemRow := { id := "f1", agentId := "a", content := "x" }

/-- A database holding only `rowFactX`. -/
def dbOneFact : DB := { facts := [rowFactX] }

/-- An active decision of agent `a` with title `T` and decision `D`. -/
def rowDecisionTD : MemRow :=
  { id := "d1", agentId := "a", title := "T", decision := "D" }

/-- A database holding only `rowDecisionTD`. -/
def dbOneDecision : DB := { decisions := [rowDecisionTD] }

/-- An active event of agent `a`. -/
def rowEventX : MemRow := { id := "e1", agentId := "a", title := "Deploy failed" }

/-- A database holding only `rowEventX`. -/
def dbOneEvent : DB := { events := [rowEventX] }

/-- Edge body used to exercise the upsert. -/
def edgeBodyW1 : EdgeBody :=
  { agentId := "a", sourceType := "fact", sourceId := "f1",
    targetType := "decision", targetId := "d1", relation := "relates_to",
    weight := some (mkRat 9 10) }

/-- The same five-tuple with a different weight. -/
def edgeBodyW2 : EdgeBody := { edgeBodyW1 with weight := some 1 }

/-- A one-item-per-type extraction result. -/
def extractionW : ExtractionResult :=
  { facts := [{ content := "PostgreSQL chosen" }],
    decisions := [{ title := "Use pgvector", decision := "HNSW index" }],
    tasks := [{ title := "Implement search" }],
    events := [{ title := "Tests started", eventType := "milestone" }] }

/-- Recall parameters exercising the keyword-only path. -/
def recallParamsW : RecallParams :=
  { query := "x", agentId := "a", limit := 20, includeRelated := false,
    recencyWeight := 0, semanticWeight := 0, keywordWeight := 1 }

/-- The recall result produced for `rowFactX` under `recallParamsW`. -/
def rW : RecallResult :=
  { id := "f1", type := "fact", content := "x", score := 1,
    signals := { keyword := some 1, recency := some 1 }, createdAt := 0 }

/-- The recall response produced for `dbOneFact` under `recallParamsW`. -/
def respW : RecallResponse :=
  { results := [rW], total := 1, query := "x", weights := (0, 1, 0) }

/-! ## Helper lemmas -/

theorem mem_insertDescBy {f : α → ℚ} {a x : α} {l : List α} :
    x ∈ insertDescBy f a l ↔ x = a ∨ x ∈ l := by
  induction l with
  | nil => simp [insertDescBy]
  | cons b bs ih =>
      simp only [insertDescBy]
      split
      · simp [ih]; tauto
      · simp

theorem mem_sortDescBy {f : α → ℚ} {x : α} {l : List α} :
    x ∈ sortDescBy f l ↔ x ∈ l := by
  induction l with
  | nil => simp [sortDescBy]
  | cons a as ih => simp [sortDescBy, mem_insertDescBy, ih]

theorem mem_insertAscBy {f : α → ℚ} {a x : α} {l : List α} :
    x ∈ insertAscBy f a l ↔ x = a ∨ x ∈ l := by
  induction l with
  | nil => simp [insertAscBy]
  | cons b bs ih =>
      simp only [insertAscBy]
      split
      · simp [ih]; tauto
      · simp

theorem mem_sortAscBy {f : α → ℚ} {x : α} {l : List α} :
    x ∈ sortAscBy f l ↔ x ∈ l := by
  induction l with
  | nil => simp [sortAscBy]
  | cons a as ih => simp [sortAscBy, mem_insertAscBy, ih]

theorem sortDescBy_head_max {f : α → ℚ} {l : List α} {a : α} {rest : List α}
    (h : sortDescBy f l = a :: rest) : ∀ b ∈ l, f b ≤ f a := by
  induction l generalizing a rest with
  | nil => simp [sortDescBy] at h
  | cons c cs ih =>
      simp only [sortDescBy] at h
      rcases hs : sortDescBy f cs with _ | ⟨d, ds⟩
      · rw [hs] at h
        simp only [insertDescBy] at h
        cases h
        intro b hb
        rcases List.mem_cons.mp hb with rfl | hb'
        · exact le_refl _
        · have hmem : b ∈ sortDescBy f cs := mem_sortDescBy.mpr hb'
          rw [hs] at hmem
          simp at hmem
      · rw [hs] at h
        simp only [insertDescBy] at h
        split at h
        · next hlt =>
            cases h
            intro b hb
            rcases List.mem_cons.mp hb with rfl | hb'
            · exact le_of_lt hlt
            · exact ih hs b hb'
        · next hge =>
            cases h
            intro b hb
            rcases List.mem_cons.mp hb with rfl | hb'
            · exact le_refl _
            · exact le_trans (ih hs b hb') (le_of_not_gt hge)

theorem sortDescBy_ne_nil {f : α → ℚ} {l : List α} (h : l ≠ []) :
    ∃ a rest, sortDescBy f l = a :: rest := by
  rcases l with _ | ⟨c, cs⟩
  · exact absurd rfl h
  · rcases hs : sortDescBy f (c :: cs) with _ | ⟨a, rest⟩
    · have : c ∈ sortDescBy f (c :: cs) := mem_sortDescBy.mpr (by simp)
      rw [hs] at this
      simp at this
    · exact ⟨a, rest, rfl⟩

theorem head?_some_mem {l : List α} {a : α} (h : l.head? = some a) : a ∈ l := by
  cases l with
  | nil => simp at h
  | cons b bs => simp at h; simp [h]

theorem checkDuplicate_some_src {ops : StoreOps} {provider : Option Embedder}
    {db : DB} {t : MemTable} {agentId content : String} {m : DuplicateMatch}
    (h : checkDuplicate ops provider db t agentId content = some m) :
    ∃ row, row ∈ db.rowsOf t ∧ row.id = m.id ∧ row.agentId = agentId ∧
      row.decayStatus = .active := by
  simp only [checkDuplicate] at h
  split at h
  case h_1 r hr =>
    have hmem := head?_some_mem hr
    rw [mem_sortDescBy, List.mem_filter] at hmem
    obtain ⟨hrow, hcond⟩ := hmem
    rw [decide_eq_true_eq] at hcond
    cases h
    exact ⟨r, hrow, rfl, hcond.1, hcond.2.1⟩
  case h_2 =>
    split at h
    case h_1 => exact absurd h (by simp)
    case h_2 e =>
      split at h
      case h_1 => exact absurd h (by simp)
      case h_2 q hq =>
        split at h
        case h_1 r hr =>
          have hmem := head?_some_mem hr
          rw [mem_sortDescBy, List.mem_filter] at hmem
          obtain ⟨hrow, hcond⟩ := hmem
          rw [decide_eq_true_eq] at hcond
          cases h
          exact ⟨r, hrow, rfl, hcond.1, hcond.2.2.1⟩
        case h_2 => exact absurd h (by simp)

/-- C3 (amended): for every dedup check over a table, stage 1 computes
trigram similarity between the candidate text and the table's canonical
content column — facts→content, decisions→title, tasks→title, events→title,
session_messages→content (the `contentColOf` mapping) — over active rows of
the same agent, and returns the top such match whenever that similarity is
strictly greater than 0.6: whenever some active same-agent row exceeds the
threshold, `checkDuplicate` returns a syntactic match whose similarity
dominates every active same-agent row's similarity. -/
theorem checkDuplicate_stage1_top (ops : StoreOps) (provider : Option Embedder)
    (db : DB) (t : MemTable) (agentId content : String)
    (h : ∃ row, row ∈ db.rowsOf t ∧ row.agentId = agentId ∧
      row.decayStatus = .active ∧
      TRIGRAM_THRESHOLD < ops.trigramSim (contentColOf t row) content) :
    ∃ m, checkDuplicate ops provider db t agentId content = some m ∧
      m.syntactic = true ∧ TRIGRAM_THRESHOLD < m.similarity ∧
      (∃ row, row ∈ db.rowsOf t ∧ row.agentId = agentId ∧
        row.decayStatus = .active ∧ row.id = m.id ∧
        ops.trigramSim (contentColOf t row) content = m.similarity) ∧
      ∀ row, row ∈ db.rowsOf t → row.agentId = agentId →
        row.decayStatus = .active →
        ops.trigramSim (contentColOf t row) content ≤ m.similarity := by
  obtain ⟨w, hw, hwa, hws, hwt⟩ := h
  have hwc : w ∈ (db.rowsOf t).filter (fun r =>
      decide (r.agentId = agentId ∧ r.decayStatus = DecayStatus.active ∧
        TRIGRAM_THRESHOLD < ops.trigramSim (contentColOf t r) content)) := by
    rw [List.mem_filter, decide_eq_true_eq]
    exact ⟨hw, hwa, hws, hwt⟩
  have hne : (db.rowsOf t).filter (fun r =>
      decide (r.agentId = agentId ∧ r.decayStatus = DecayStatus.active ∧
        TRIGRAM_THRESHOLD < ops.trigramSim (contentColOf t r) content)) ≠ [] := by
    intro hnil
    rw [hnil] at hwc
    simp at hwc
  obtain ⟨a, rest, hs⟩ :=
    sortDescBy_ne_nil (f := fun r => ops.trigramSim (contentColOf t r) content) hne
  have ha : a ∈ (db.rowsOf t).filter (fun r =>
      decide (r.agentId = agentId ∧ r.decayStatus = DecayStatus.active ∧
        TRIGRAM_THRESHOLD < ops.trigramSim (contentColOf t r) content)) := by
    rw [← mem_sortDescBy (f := fun r => ops.trigramSim (contentColOf t r) content), hs]
    exact List.mem_cons_self a rest
  have hacond := ha
  rw [List.mem_filter, decide_eq_true_eq] at hacond
  have hmax := sortDescBy_head_max hs
  have heq : checkDuplicate ops provider db t agentId content =
      some ⟨a.id, ops.trigramSim (contentColOf t a) content, true⟩ := by
    simp only [checkDuplicate]
    rw [hs]
    rfl
  refine ⟨⟨a.id, ops.trigramSim (contentColOf t a) content, true⟩, heq, rfl,
    hacond.2.2.2, ⟨a, hacond.1, hacond.2.1, hacond.2.2.1, rfl, rfl⟩, ?_⟩
  intro row hrow hragent hractive
  by_cases hthr : TRIGRAM_THRESHOLD < ops.trigramSim (contentColOf t row) content
  · have hrowc : row ∈ (db.rowsOf t).filter (fun r =>
        decide (r.agentId = agentId ∧ r.decayStatus = DecayStatus.active ∧
          TRIGRAM_THRESHOLD < ops.trigramSim (contentColOf t r) content)) := by
      rw [List.mem_filter, decide_eq_true_eq]
      exact ⟨hrow, hragent, hractive, hthr⟩
    exact hmax row hrowc
  · exact le_trans (le_of_not_gt hthr) (le_of_lt hacond.2.2.2)

/-- C3 counterexample: the claim fails on the code in two ways.  (1) At
trigram similarity exactly 0.6 — "at least 0.6" per the claim — stage 1
returns no match, because the code's comparison is strict.  (2) For
decisions the code compares the candidate against the `title` column, not
against `"title: decision"`: with a similarity function that is 1 on the
stored title and 0 on the concatenation, the claim predicts no syntactic
match (claimed-column similarity 0 < 0.6) yet the code returns one with
similarity 1. -/
theorem checkDuplicate_claim_cex :
    (checkDuplicate opsConstSix none dbOneFact .facts "a" "x" = none ∧
      opsConstSix.trigramSim (contentColOf .facts rowFactX) "x" = mkRat 6 10) ∧
    (checkDuplicate opsTitleProbe none dbOneDecision .decisions "a" "T: D" =
        some ⟨"d1", 1, true⟩ ∧
      opsTitleProbe.trigramSim
        (rowDecisionTD.title ++ ": " ++ rowDecisionTD.decision) "T: D" = 0) := by
  decide

/-- C3 amended, witness: a concrete database with one active fact whose
similarity exceeds the threshold yields a syntactic top match. -/
theorem checkDuplicate_stage1_top_witness :
    ∃ m, checkDuplicate opsAlwaysOne none dbOneFact .facts "a" "x" = some m ∧
      m.syntactic = true ∧ TRIGRAM_THRESHOLD < m.similarity ∧
      (∃ row, row ∈ dbOneFact.rowsOf .facts ∧ row.agentId = "a" ∧
        row.decayStatus = .active ∧ row.id = m.id ∧
        opsAlwaysOne.trigramSim (contentColOf .facts row) "x" = m.similarity) ∧
      ∀ row, row ∈ dbOneFact.rowsOf .facts → row.agentId = "a" →
        row.decayStatus = .active →
        opsAlwaysOne.trigramSim (contentColOf .facts row) "x" ≤ m.similarity :=
  checkDuplicate_stage1_top opsAlwaysOne none dbOneFact .facts "a" "x"
    ⟨rowFactX, by decide⟩

/-- C2 counterexample: `POST /api/v1/events` runs no dedup check.  With a
similarity function that makes every pair a trigram match,
`checkDuplicate` on the events table finds the existing event, yet the
handler still inserts a second row and replies 201. -/
theorem postEvent_skips_dedup_cex :
    checkDuplicate opsAlwaysOne none dbOneEvent .events "a" "Deploy failed" =
      some ⟨"e1", 1, true⟩ ∧
    (postEvent none dbOneEvent
        { agentId := "a", title := "Deploy failed", eventType := "incident" } 0).1 =
      .created "m0" ∧
    ((postEvent none dbOneEvent
        { agentId := "a", title := "Deploy failed", eventType := "incident" } 0).2).events.length = 2 := by
  decide

/-- C2 (amended): for every direct POST of a fact, decision, or task, the
two-stage dedup check of §4.4 runs before insertion — when it matches an
existing item the request returns a duplicate conflict carrying the existing
id and similarity and no row is inserted, and when it does not match the row
is inserted.  POSTs of events, projects (and session_messages) are never
dedup-checked: a valid event or project POST always inserts. -/
theorem direct_post_dedup (ops : StoreOps) (provider : Option Embedder) :
    (∀ db (b : FactBody) m, b.agentId ≠ "" → b.content ≠ "" →
      checkDuplicate ops provider db .facts b.agentId b.content = some m →
      postFact ops provider db b = (.conflict m.id m.similarity, db)) ∧
    (∀ db (b : FactBody), b.agentId ≠ "" → b.content ≠ "" →
      checkDuplicate ops provider db .facts b.agentId b.content = none →
      (postFact ops provider db b).1 = .created (freshId db.nextId) ∧
      ((postFact ops provider db b).2).facts.length = db.facts.length + 1) ∧
    (∀ db (b : DecisionBody) m, b.agentId ≠ "" → b.title ≠ "" → b.decision ≠ "" →
      checkDuplicate ops provider db .decisions b.agentId
        (b.title ++ ": " ++ b.decision) = some m →
      postDecision ops provider db b = (.conflict m.id m.similarity, db)) ∧
    (∀ db (b : DecisionBody), b.agentId ≠ "" → b.title ≠ "" → b.decision ≠ "" →
      checkDuplicate ops provider db .decisions b.agentId
        (b.title ++ ": " ++ b.decision) = none →
      (postDecision ops provider db b).1 = .created (freshId db.nextId) ∧
      ((postDecision ops provider db b).2).decisions.length = db.decisions.length + 1) ∧
    (∀ db (b : TaskBody) m, b.agentId ≠ "" → b.title ≠ "" →
      checkDuplicate ops provider db .tasks b.agentId b.title = some m →
      postTask ops provider db b = (.conflict m.id m.similarity, db)) ∧
    (∀ db (b : TaskBody), b.agentId ≠ "" → b.title ≠ "" →
      checkDuplicate ops provider db .tasks b.agentId b.title = none →
      (postTask ops provider db b).1 = .created (freshId db.nextId) ∧
      ((postTask ops provider db b).2).tasks.length = db.tasks.length + 1) ∧
    (∀ db (b : EventBody) now, b.agentId ≠ "" → b.title ≠ "" → b.eventType ≠ "" →
      (postEvent provider db b now).1 = .created (freshId db.nextId) ∧
      ((postEvent provider db b now).2).events.length = db.events.length + 1) ∧
    (∀ db (b : ProjectBody), b.agentId ≠ "" → b.name ≠ "" →
      (postProject provider db b).1 = .created (freshId db.nextId) ∧
      ((postProject provider db b).2).projects.length = db.projects.length + 1) := by
  refine ⟨?_, ?_, ?_, ?_, ?_, ?_, ?_, ?_⟩
  · intro db b m h1 h2 hdup
    simp only [postFact]
    rw [if_neg (by simp [h1, h2]), hdup]
  · intro db b h1 h2 hdup
    simp only [postFact]
    rw [if_neg (by simp [h1, h2]), hdup]
    simp
  · intro db b m h1 h2 h3 hdup
    simp only [postDecision]
    rw [if_neg (by simp [h1, h2, h3]), hdup]
  · intro db b h1 h2 h3 hdup
    simp only [postDecision]
    rw [if_neg (by simp [h1, h2, h3]), hdup]
    simp
  · intro db b m h1 h2 hdup
    simp only [postTask]
    rw [if_neg (by simp [h1, h2]), hdup]
  · intro db b h1 h2 hdup
    simp only [postTask]
    rw [if_neg (by simp [h1, h2]), hdup]
    simp
  · intro db b now h1 h2 h3
    simp only [postEvent]
    rw [if_neg (by simp [h1, h2, h3])]
    simp
  · intro db b h1 h2
    simp only [postProject]
    rw [if_neg (by simp [h1, h2])]
    simp

/-- C2 (amended), witness: with constant similarity 1 and concrete bodies,
a duplicate fact POST returns the conflict with the stored row's id and no
insertion, while an event POST inserts. -/
theorem direct_post_dedup_witness :
    postFact opsAlwaysOne none dbOneFact { agentId := "a", content := "x" } =
      (.conflict "f1" 1, dbOneFact) ∧
    (postEvent none dbOneEvent
        { agentId := "a", title := "Deploy failed", eventType := "incident" } 0).1 =
      .created (freshId dbOneEvent.nextId) := by
  constructor
  · have h := (direct_post_dedup opsAlwaysOne none).1 dbOneFact
      { agentId := "a", content := "x" } ⟨"f1", 1, true⟩
      (by decide) (by decide) (by decide)
    exact h
  · exact ((direct_post_dedup opsAlwaysOne none).2.2.2.2.2.2.1 dbOneEvent
      { agentId := "a", title := "Deploy failed", eventType := "incident" } 0
      (by decide) (by decide) (by decide)).1

theorem find?_append_eq {l1 l2 : List α} {p : α → Bool} :
    (l1 ++ l2).find? p =
      (match l1.find? p with
       | some a => some a
       | none => l2.find? p) := by
  induction l1 with
  | nil => simp
  | cons a as ih =>
      simp only [List.cons_append, List.find?_cons]
      cases hpa : p a
      · exact ih
      · rfl

theorem find?_map_pres (f : α → α) (p : α → Bool) (hp : ∀ x, p (f x) = p x)
    (l : List α) : (l.map f).find? p = (l.find? p).map f := by
  induction l with
  | nil => simp
  | cons a as ih =>
      simp only [List.map_cons, List.find?_cons, hp a]
      cases hpa : p a
      · exact ih
      · rfl

theorem edgeTuple_update (x : Edge) (w : ℚ) (md : Json)
    (tp : String × String × String × String × String) :
    edgeTuple (if edgeTuple x = tp then { x with weight := w, metadata := md } else x) =
      edgeTuple x := by
  split <;> rfl

theorem postEdge_found_after (db : DB) (b : EdgeBody)
    (hv : ¬(b.agentId = "" ∨ b.sourceType = "" ∨ b.sourceId = "" ∨
      b.targetType = "" ∨ b.targetId = "" ∨ b.relation = "")) :
    ∃ id1 db1 e1, postEdge db b = (.created id1, db1) ∧
      db1.edges.find? (fun x => decide (edgeTuple x = bodyTuple b)) = some e1 ∧
      e1.id = id1 := by
  simp only [postEdge]
  rw [if_neg hv]
  rcases hfind : db.edges.find? (fun e => decide (edgeTuple e = bodyTuple b)) with _ | e0
  · refine ⟨freshId db.nextId, _,
      { id := freshId db.nextId, agentId := b.agentId, sourceType := b.sourceType,
        sourceId := b.sourceId, targetType := b.targetType, targetId := b.targetId,
        relation := b.relation, weight := b.weight.getD 1,
        metadata := b.metadata.getD (.obj []) }, rfl, ?_, rfl⟩
    rw [find?_append_eq, hfind]
    simp only [List.find?_cons]
    have hnew : edgeTuple
        { id := freshId db.nextId, agentId := b.agentId, sourceType := b.sourceType,
          sourceId := b.sourceId, targetType := b.targetType, targetId := b.targetId,
          relation := b.relation, weight := b.weight.getD 1,
          metadata := b.metadata.getD (.obj []) } = bodyTuple b := rfl
    simp [hnew]
  · have he0p := List.find?_some hfind
    simp only [decide_eq_true_eq] at he0p
    refine ⟨e0.id, _,
      { e0 with weight := b.weight.getD 1, metadata := b.metadata.getD (.obj []) },
      rfl, ?_, rfl⟩
    rw [find?_map_pres _ _ (fun x => by simp only [edgeTuple_update]), hfind]
    simp [he0p]

theorem postEdge_update_of_found (db1 : DB) (b2 : EdgeBody) (e1 : Edge)
    (hv : ¬(b2.agentId = "" ∨ b2.sourceType = "" ∨ b2.sourceId = "" ∨
      b2.targetType = "" ∨ b2.targetId = "" ∨ b2.relation = ""))
    (hfound : db1.edges.find? (fun x => decide (edgeTuple x = bodyTuple b2)) = some e1) :
    ∃ db2, postEdge db1 b2 = (.created e1.id, db2) ∧
      db2.edges.length = db1.edges.length ∧
      db2.edges.find? (fun x => decide (edgeTuple x = bodyTuple b2)) =
        some { e1 with weight := b2.weight.getD 1,
                       metadata := b2.metadata.getD (.obj []) } := by
  have he1p := List.find?_some hfound
  simp only [decide_eq_true_eq] at he1p
  refine
    ⟨{ db1 with
         edges := db1.edges.map (fun x =>
           if edgeTuple x = bodyTuple b2 then
             { x with weight := b2.weight.getD 1,
                      metadata := b2.metadata.getD (.obj []) }
           else x) },
      ?_, ?_, ?_⟩
  · simp only [postEdge]
    rw [if_neg hv, hfound]
  · simp
  · show (List.map _ _).find? _ = _
    rw [find?_map_pres _ _ (fun x => by simp only [edgeTuple_update]), hfound]
    simp [he1p]

/-- C6: edge creation is an upsert keyed on the five-tuple (source_type,
source_id, target_type, target_id, relation): posting the same five-tuple
again creates no second edge row, returns the same edge id, and the stored
edge at that tuple carries the latest weight and metadata. -/
theorem edge_upsert_five_tuple (db : DB) (b1 b2 : EdgeBody)
    (ht : bodyTuple b1 = bodyTuple b2)
    (h1 : b1.agentId ≠ "") (h2 : b1.sourceType ≠ "") (h3 : b1.sourceId ≠ "")
    (h4 : b1.targetType ≠ "") (h5 : b1.targetId ≠ "") (h6 : b1.relation ≠ "")
    (h7 : b2.agentId ≠ "") :
    ∃ id1 db1 db2,
      postEdge db b1 = (.created id1, db1) ∧
      postEdge db1 b2 = (.created id1, db2) ∧
      db2.edges.length = db1.edges.length ∧
      ∃ e, db2.edges.find? (fun x => decide (edgeTuple x = bodyTuple b2)) = some e ∧
        e.id = id1 ∧ e.weight = b2.weight.getD 1 ∧
        e.metadata = b2.metadata.getD (.obj []) := by
  have hcomp : b1.sourceType = b2.sourceType ∧ b1.sourceId = b2.sourceId ∧
      b1.targetType = b2.targetType ∧ b1.targetId = b2.targetId ∧
      b1.relation = b2.relation := by
    simpa [bodyTuple, Prod.ext_iff] using ht
  obtain ⟨hc1, hc2, hc3, hc4, hc5⟩ := hcomp
  have hv2 : ¬(b2.agentId = "" ∨ b2.sourceType = "" ∨ b2.sourceId = "" ∨
      b2.targetType = "" ∨ b2.targetId = "" ∨ b2.relation = "") := by
    simp [← hc1, ← hc2, ← hc3, ← hc4, ← hc5, h7, h2, h3, h4, h5, h6]
  have hv1 : ¬(b1.agentId = "" ∨ b1.sourceType = "" ∨ b1.sourceId = "" ∨
      b1.targetType = "" ∨ b1.targetId = "" ∨ b1.relation = "") := by
    simp [h1, h2, h3, h4, h5, h6]
  obtain ⟨id1, db1, e1, hpost1, hfound, hid⟩ := postEdge_found_after db b1 hv1
  rw [ht] at hfound
  obtain ⟨db2, hpost2, hlen, hfind3⟩ := postEdge_update_of_found db1 b2 e1 hv2 hfound
  rw [hid] at hpost2
  exact ⟨id1, db1, db2, hpost1, hpost2, hlen,
    ⟨{ e1 with weight := b2.weight.getD 1, metadata := b2.metadata.getD (.obj []) },
      hfind3, hid, rfl, rfl⟩⟩

/-- C6, witness: on an empty database, posting a tuple and re-posting it
with a different weight returns the same id, keeps one row, and stores the
new weight and metadata. -/
theorem edge_upsert_five_tuple_witness :
    ∃ id1 db1 db2,
      postEdge {} edgeBodyW1 = (.created id1, db1) ∧
      postEdge db1 edgeBodyW2 = (.created id1, db2) ∧
      db2.edges.length = db1.edges.length ∧
      ∃ e, db2.edges.find? (fun x => decide (edgeTuple x = bodyTuple edgeBodyW2)) = some e ∧
        e.id = id1 ∧ e.weight = edgeBodyW2.weight.getD 1 ∧
        e.metadata = edgeBodyW2.metadata.getD (.obj []) :=
  edge_upsert_five_tuple {} edgeBodyW1 edgeBodyW2 rfl (by decide) (by decide)
    (by decide) (by decide) (by decide) (by decide) (by decide)

theorem addEdgeIfAbsent_mono {db : DB} {agentId st sid tt tid rel : String}
    {e : Edge} (h : e ∈ db.edges) :
    e ∈ (db.addEdgeIfAbsent agentId st sid tt tid rel).edges := by
  unfold DB.addEdgeIfAbsent
  split
  · exact h
  · simp [h]

theorem addEdgeIfAbsent_creates (db : DB) (agentId st sid tt tid rel : String) :
    ∃ e ∈ (db.addEdgeIfAbsent agentId st sid tt tid rel).edges,
      e.sourceType = st ∧ e.sourceId = sid ∧ e.targetType = tt ∧
      e.targetId = tid ∧ e.relation = rel := by
  unfold DB.addEdgeIfAbsent
  split
  · next hany =>
      rw [List.any_eq_true] at hany
      obtain ⟨x, hx, hxt⟩ := hany
      rw [decide_eq_true_eq] at hxt
      have := hxt
      simp only [edgeTuple, Prod.mk.injEq] at this
      exact ⟨x, hx, this.1, this.2.1, this.2.2.1, this.2.2.2.1, this.2.2.2.2⟩
  · refine
      ⟨{ id := freshId db.nextId, agentId := agentId, sourceType := st,
         sourceId := sid, targetType := tt, targetId := tid, relation := rel },
        ?_, rfl, rfl, rfl, rfl, rfl⟩
    simp

theorem storeFactsLoop_mono {agentId sessionId : String}
    {provider : Option Embedder} {fs : List ExtractedFact} {db : DB} {e : Edge}
    (h : e ∈ db.edges) :
    e ∈ (storeFactsLoop agentId sessionId provider fs db).2.edges := by
  induction fs generalizing db with
  | nil => exact h
  | cons f fs ih =>
      simp only [storeFactsLoop]
      exact ih (addEdgeIfAbsent_mono h)

theorem storeDecisionsLoop_mono {agentId sessionId : String}
    {provider : Option Embedder} {ds : List ExtractedDecision} {db : DB} {e : Edge}
    (h : e ∈ db.edges) :
    e ∈ (storeDecisionsLoop agentId sessionId provider ds db).2.edges := by
  induction ds generalizing db with
  | nil => exact h
  | cons d ds ih =>
      simp only [storeDecisionsLoop]
      exact ih (addEdgeIfAbsent_mono h)

theorem storeTasksLoop_mono {agentId sessionId : String}
    {provider : Option Embedder} {ts : List ExtractedTask} {db : DB} {e : Edge}
    (h : e ∈ db.edges) :
    e ∈ (storeTasksLoop agentId sessionId provider ts db).2.edges := by
  induction ts generalizing db with
  | nil => exact h
  | cons t ts ih =>
      simp only [storeTasksLoop]
      exact ih (addEdgeIfAbsent_mono h)

theorem storeEventsLoop_mono {agentId sessionId : String}
    {provider : Option Embedder} {es : List ExtractedEvent} {db : DB} {e : Edge}
    (h : e ∈ db.edges) :
    e ∈ (storeEventsLoop agentId sessionId provider es db).2.edges := by
  induction es generalizing db with
  | nil => exact h
  | cons ev es ih =>
      simp only [storeEventsLoop]
      exact ih (addEdgeIfAbsent_mono h)

/-- The derivation-edge property for a stored item id. -/
def hasDerivationEdge (edges : List Edge) (srcType : String) (id : String)
    (sessionId : String) (rel : String) : Prop :=
  ∃ e ∈ edges, e.sourceType = srcType ∧ e.sourceId = id ∧
    e.targetType = "session" ∧ e.targetId = sessionId ∧ e.relation = rel

theorem storeFactsLoop_after_addEdge (agentId sessionId : String)
    (provider : Option Embedder) (fs : List ExtractedFact) (X : DB)
    (a st id rel : String) :
    hasDerivationEdge (storeFactsLoop agentId sessionId provider fs
      (X.addEdgeIfAbsent a st id "session" sessionId rel)).2.edges
      st id sessionId rel := by
  obtain ⟨e, he, hp⟩ := addEdgeIfAbsent_creates X a st id "session" sessionId rel
  exact ⟨e, storeFactsLoop_mono he, hp⟩

theorem storeDecisionsLoop_after_addEdge (agentId sessionId : String)
    (provider : Option Embedder) (ds : List ExtractedDecision) (X : DB)
    (a st id rel : String) :
    hasDerivationEdge (storeDecisionsLoop agentId sessionId provider ds
      (X.addEdgeIfAbsent a st id "session" sessionId rel)).2.edges
      st id sessionId rel := by
  obtain ⟨e, he, hp⟩ := addEdgeIfAbsent_creates X a st id "session" sessionId rel
  exact ⟨e, storeDecisionsLoop_mono he, hp⟩

theorem storeTasksLoop_after_addEdge (agentId sessionId : String)
    (provider : Option Embedder) (ts : List ExtractedTask) (X : DB)
    (a st id rel : String) :
    hasDerivationEdge (storeTasksLoop agentId sessionId provider ts
      (X.addEdgeIfAbsent a st id "session" sessionId rel)).2.edges
      st id sessionId rel := by
  obtain ⟨e, he, hp⟩ := addEdgeIfAbsent_creates X a st id "session" sessionId rel
  exact ⟨e, storeTasksLoop_mono he, hp⟩

theorem storeEventsLoop_after_addEdge (agentId sessionId : String)
    (provider : Option Embedder) (es : List ExtractedEvent) (X : DB)
    (a st id rel : String) :
    hasDerivationEdge (storeEventsLoop agentId sessionId provider es
      (X.addEdgeIfAbsent a st id "session" sessionId rel)).2.edges
      st id sessionId rel := by
  obtain ⟨e, he, hp⟩ := addEdgeIfAbsent_creates X a st id "session" sessionId rel
  exact ⟨e, storeEventsLoop_mono he, hp⟩

theorem storeFactsLoop_edges {agentId sessionId : String}
    {provider : Option Embedder} {fs : List ExtractedFact} {db : DB} :
    ∀ id ∈ (storeFactsLoop agentId sessionId provider fs db).1,
      hasDerivationEdge (storeFactsLoop agentId sessionId provider fs db).2.edges
        "fact" id sessionId "derived_from" := by
  induction fs generalizing db with
  | nil => intro id h; simp [storeFactsLoop] at h
  | cons f fs ih =>
      intro id h
      simp only [storeFactsLoop, List.mem_cons] at h ⊢
      rcases h with rfl | h
      · exact storeFactsLoop_after_addEdge _ _ _ _ _ _ _ _ _
      · exact ih id h

theorem storeDecisionsLoop_edges {agentId sessionId : String}
    {provider : Option Embedder} {ds : List ExtractedDecision} {db : DB} :
    ∀ id ∈ (storeDecisionsLoop agentId sessionId provider ds db).1,
      hasDerivationEdge (storeDecisionsLoop agentId sessionId provider ds db).2.edges
        "decision" id sessionId "decided_in" := by
  induction ds generalizing db with
  | nil => intro id h; simp [storeDecisionsLoop] at h
  | cons d ds ih =>
      intro id h
      simp only [storeDecisionsLoop, List.mem_cons] at h ⊢
      rcases h with rfl | h
      · exact storeDecisionsLoop_after_addEdge _ _ _ _ _ _ _ _ _
      · exact ih id h

theorem storeTasksLoop_edges {agentId sessionId : String}
    {provider : Option Embedder} {ts : List ExtractedTask} {db : DB} :
    ∀ id ∈ (storeTasksLoop agentId sessionId provider ts db).1,
      hasDerivationEdge (storeTasksLoop agentId sessionId provider ts db).2.edges
        "task" id sessionId "derived_from" := by
  induction ts generalizing db with
  | nil => intro id h; simp [storeTasksLoop] at h
  | cons t ts ih =>
      intro id h
      simp only [storeTasksLoop, List.mem_cons] at h ⊢
      rcases h with rfl | h
      · exact storeTasksLoop_after_addEdge _ _ _ _ _ _ _ _ _
      · exact ih id h

theorem storeEventsLoop_edges {agentId sessionId : String}
    {provider : Option Embedder} {es : List ExtractedEvent} {db : DB} :
    ∀ id ∈ (storeEventsLoop agentId sessionId provider es db).1,
      hasDerivationEdge (storeEventsLoop agentId sessionId provider es db).2.edges
        "event" id sessionId "derived_from" := by
  induction es generalizing db with
  | nil => intro id h; simp [storeEventsLoop] at h
  | cons ev es ih =>
      intro id h
      simp only [storeEventsLoop, List.mem_cons] at h ⊢
      rcases h with rfl | h
      · exact storeEventsLoop_after_addEdge _ _ _ _ _ _ _ _ _
      · exact ih id h

/-- C5: after ingesting a message, every stored extracted item has an edge
to the session — relation derived_from for facts, tasks and events, and
decided_in for decisions — and the edge insert (`ON CONFLICT DO NOTHING`)
is idempotent. -/
theorem storeExtractedItems_derivation_edges (agentId sessionId : String)
    (provider : Option Embedder) (extracted : ExtractionResult) (db : DB) :
    (∀ id ∈ (storeExtractedItems agentId sessionId provider extracted db).1.factIds,
      hasDerivationEdge (storeExtractedItems agentId sessionId provider extracted db).2.edges
        "fact" id sessionId "derived_from") ∧
    (∀ id ∈ (storeExtractedItems agentId sessionId provider extracted db).1.decisionIds,
      hasDerivationEdge (storeExtractedItems agentId sessionId provider extracted db).2.edges
        "decision" id sessionId "decided_in") ∧
    (∀ id ∈ (storeExtractedItems agentId sessionId provider extracted db).1.taskIds,
      hasDerivationEdge (storeExtractedItems agentId sessionId provider extracted db).2.edges
        "task" id sessionId "derived_from") ∧
    (∀ id ∈ (storeExtractedItems agentId sessionId provider extracted db).1.eventIds,
      hasDerivationEdge (storeExtractedItems agentId sessionId provider extracted db).2.edges
        "event" id sessionId "derived_from") ∧
    (∀ (db' : DB) (a st sid tt tid rel : String),
      ((db'.addEdgeIfAbsent a st sid tt tid rel).addEdgeIfAbsent a st sid tt tid rel) =
        db'.addEdgeIfAbsent a st sid tt tid rel) := by
  refine ⟨?_, ?_, ?_, ?_, ?_⟩
  · intro id h
    simp only [storeExtractedItems] at h ⊢
    obtain ⟨e, he, hp⟩ := storeFactsLoop_edges id h
    exact ⟨e, storeEventsLoop_mono (storeTasksLoop_mono (storeDecisionsLoop_mono he)), hp⟩
  · intro id h
    simp only [storeExtractedItems] at h ⊢
    obtain ⟨e, he, hp⟩ := storeDecisionsLoop_edges id h
    exact ⟨e, storeEventsLoop_mono (storeTasksLoop_mono he), hp⟩
  · intro id h
    simp only [storeExtractedItems] at h ⊢
    obtain ⟨e, he, hp⟩ := storeTasksLoop_edges id h
    exact ⟨e, storeEventsLoop_mono he, hp⟩
  · intro id h
    simp only [storeExtractedItems] at h ⊢
    exact storeEventsLoop_edges id h
  · intro db' a st sid tt tid rel
    by_cases hany : db'.edges.any (fun x => decide (edgeTuple x = (st, sid, tt, tid, rel)))
    · simp [DB.addEdgeIfAbsent, hany]
    · unfold DB.addEdgeIfAbsent
      rw [if_neg hany]
      split
      · rfl
      · next hfalse =>
          refine absurd ?_ hfalse
          rw [List.any_append]
          simp [edgeTuple]

/-- C5, witness: ingesting one extracted item of each type on an empty
database yields a derivation edge to the session for each stored id. -/
theorem storeExtractedItems_derivation_edges_witness :
    hasDerivationEdge (storeExtractedItems "a" "s1" none extractionW {}).2.edges
      "fact" "m0" "s1" "derived_from" ∧
    hasDerivationEdge (storeExtractedItems "a" "s1" none extractionW {}).2.edges
      "decision" "m2" "s1" "decided_in" ∧
    hasDerivationEdge (storeExtractedItems "a" "s1" none extractionW {}).2.edges
      "task" "m4" "s1" "derived_from" ∧
    hasDerivationEdge (storeExtractedItems "a" "s1" none extractionW {}).2.edges
      "event" "m6" "s1" "derived_from" :=
  ⟨(storeExtractedItems_derivation_edges "a" "s1" none extractionW {}).1 "m0" (by decide),
    (storeExtractedItems_derivation_edges "a" "s1" none extractionW {}).2.1 "m2" (by decide),
    (storeExtractedItems_derivation_edges "a" "s1" none extractionW {}).2.2.1 "m4" (by decide),
    (storeExtractedItems_derivation_edges "a" "s1" none extractionW {}).2.2.2.1 "m6" (by decide)⟩

theorem lookup_eq_none_iff {β : Type} {l : List (String × β)} {k : String} :
    l.lookup k = none ↔ k ∉ l.map Prod.fst := by
  induction l with
  | nil => simp
  | cons p ps ih =>
      obtain ⟨k', v⟩ := p
      by_cases h : k = k'
      · subst h
        simp [List.lookup]
      · simp [List.lookup, beq_false_of_ne h, ih, h]

theorem stripNullsObj_keys_subset {l : List (String × Json)} :
    (stripNullsObj l).map Prod.fst ⊆ l.map Prod.fst := by
  induction l with
  | nil => simp [stripNullsObj]
  | cons p ps ih =>
      obtain ⟨k', v⟩ := p
      simp only [stripNullsObj]
      split
      · exact fun x hx => by simp [ih hx]
      · intro x hx
        simp only [List.map_cons, List.mem_cons] at hx ⊢
        rcases hx with h | h
        · exact Or.inl h
        · exact Or.inr (ih h)

theorem stripNullsObj_lookup {l : List (String × Json)} (k : String)
    (hN : (l.map Prod.fst).Nodup) :
    (stripNullsObj l).lookup k =
      (l.lookup k).bind (fun v => if v.isNull then none else some (stripNulls v)) := by
  induction l with
  | nil => simp [stripNullsObj]
  | cons p ps ih =>
      obtain ⟨k', v⟩ := p
      simp only [List.map_cons, List.nodup_cons] at hN
      obtain ⟨hk', hps⟩ := hN
      simp only [stripNullsObj]
      by_cases h : k = k'
      · subst h
        split
        · next hnull =>
            have h1 : (stripNullsObj ps).lookup k = none := by
              rw [lookup_eq_none_iff]
              exact fun hx => hk' (stripNullsObj_keys_subset hx)
            rw [h1]
            simp [List.lookup, hnull]
        · next hnn =>
            simp [List.lookup, hnn]
      · split
        · next hnull =>
            rw [ih hps]
            simp [List.lookup, beq_false_of_ne h]
        · next hnn =>
            have hbeq : (k == k') = false := beq_false_of_ne h
            simp [List.lookup, hbeq, ih hps]

theorem lookup_append_eq {β : Type} {l1 l2 : List (String × β)} {k : String} :
    (l1 ++ l2).lookup k =
      (match l1.lookup k with
       | some v => some v
       | none => l2.lookup k) := by
  induction l1 with
  | nil => simp
  | cons p ps ih =>
      obtain ⟨k', v⟩ := p
      by_cases h : k = k'
      · subst h
        simp [List.lookup]
      · simp [List.lookup, beq_false_of_ne h, ih]

theorem filter_absent_lookup {core patch : List (String × Json)} {k : String} :
    (core.filter (fun p => (patch.lookup p.1).isNone)).lookup k =
      if (patch.lookup k).isSome then none else core.lookup k := by
  induction core with
  | nil => simp
  | cons p ps ih =>
      obtain ⟨k', v⟩ := p
      by_cases h : k = k'
      · subst h
        rcases hk : patch.lookup k with _ | w
        · simp [List.filter, hk, List.lookup, ih]
        · simp only [List.filter_cons]
          rw [hk]
          simp only [Option.isNone_some, Bool.false_eq_true, if_false, ih, hk]
          simp
      · rcases hp : patch.lookup k' with _ | w
        · simp only [List.filter_cons]
          rw [hp]
          simp only [Option.isNone_none, if_true]
          simp [List.lookup, beq_false_of_ne h, ih]
        · simp only [List.filter_cons]
          rw [hp]
          simp only [Option.isNone_some, Bool.false_eq_true, if_false]
          have hcons : List.lookup k ((k', v) :: ps) = List.lookup k ps := by
            simp [List.lookup, beq_false_of_ne h]
          rw [hcons]
          exact ih

theorem objConcat_lookup {core patch : List (String × Json)} {k : String} :
    (objConcat core patch).lookup k =
      if (patch.lookup k).isSome then patch.lookup k else core.lookup k := by
  unfold objConcat
  rw [lookup_append_eq, filter_absent_lookup]
  rcases hp : patch.lookup k with _ | w
  · simp only [Option.isSome_none, Bool.false_eq_true, if_false]
    cases core.lookup k <;> simp
  · simp

theorem objConcat_keys_nodup {core patch : List (String × Json)}
    (hc : (core.map Prod.fst).Nodup) (hp : (patch.map Prod.fst).Nodup) :
    ((objConcat core patch).map Prod.fst).Nodup := by
  unfold objConcat
  rw [List.map_append]
  rw [List.nodup_append]
  refine ⟨List.Nodup.sublist (List.Sublist.map _ (List.filter_sublist _)) hc, hp, ?_⟩
  intro x hx
  rw [List.mem_map] at hx
  obtain ⟨q, hq, rfl⟩ := hx
  rw [List.mem_filter] at hq
  have := hq.2
  rw [Option.isNone_iff_eq_none, lookup_eq_none_iff] at this
  exact this

/-- C7 counterexample: a key of `core_memory` that the patch never mentions
is deleted by the update when its stored value is null, because
`jsonb_strip_nulls` runs over the merged document, not over the patch: with
`core_memory = (a: null)` and patch `(b: 1)`, key `a` disappears although
the claim says unmentioned keys persist unchanged. -/
theorem core_memory_patch_cex :
    ([(("a" : String), Json.null)].lookup "a" = some Json.null) ∧
    ([(("b" : String), Json.num 1)].lookup "a" = none) ∧
    (coreMemoryPatch [("a", Json.null)] [("b", Json.num 1)]).lookup "a" = none := by
  refine ⟨rfl, rfl, rfl⟩

/-- C7 (amended): the core-memory update applies the body as a JSON
merge-patch with null-stripping over the merged document, atomically (one
UPDATE): a key patched with null is absent afterwards; a key patched with a
non-null value maps to that value with null fields recursively stripped;
and a key not mentioned by the patch keeps its stored value (nulls
recursively stripped) — except that a stored value equal to null is itself
removed. -/
theorem core_memory_patch_null_stripping (core patch : List (String × Json))
    (k : String) (hc : (core.map Prod.fst).Nodup) (hp : (patch.map Prod.fst).Nodup) :
    (patch.lookup k = some .null → (coreMemoryPatch core patch).lookup k = none) ∧
    (∀ v, patch.lookup k = some v → v.isNull = false →
      (coreMemoryPatch core patch).lookup k = some (stripNulls v)) ∧
    (patch.lookup k = none →
      (coreMemoryPatch core patch).lookup k =
        (core.lookup k).bind (fun v => if v.isNull then none else some (stripNulls v))) := by
  have hstrip := stripNullsObj_lookup (l := objConcat core patch) k
    (objConcat_keys_nodup hc hp)
  refine ⟨?_, ?_, ?_⟩
  · intro hk
    unfold coreMemoryPatch
    rw [hstrip, objConcat_lookup, hk]
    simp [Json.isNull]
  · intro v hk hv
    unfold coreMemoryPatch
    rw [hstrip, objConcat_lookup, hk]
    simp [hv]
  · intro hk
    unfold coreMemoryPatch
    rw [hstrip, objConcat_lookup, hk]
    simp

/-- C7 (amended), witness: with `core_memory = (keep: 1, drop: 2)` and patch
`(drop: null, add: 3)`, the patched key `drop` is gone, `add` is present,
and the untouched non-null key `keep` persists. -/
theorem core_memory_patch_null_stripping_witness :
    (coreMemoryPatch [("keep", Json.num 1), ("drop", Json.num 2)]
      [("drop", Json.null), ("add", Json.num 3)]).lookup "drop" = none ∧
    (coreMemoryPatch [("keep", Json.num 1), ("drop", Json.num 2)]
      [("drop", Json.null), ("add", Json.num 3)]).lookup "add" =
        some (stripNulls (Json.num 3)) ∧
    (coreMemoryPatch [("keep", Json.num 1), ("drop", Json.num 2)]
      [("drop", Json.null), ("add", Json.num 3)]).lookup "keep" =
        (([("keep", Json.num 1), ("drop", Json.num 2)] : List (String × Json)).lookup
          "keep").bind (fun v => if v.isNull then none else some (stripNulls v)) := by
  refine ⟨?_, ?_, ?_⟩
  · exact (core_memory_patch_null_stripping
      [("keep", Json.num 1), ("drop", Json.num 2)]
      [("drop", Json.null), ("add", Json.num 3)] "drop"
      (by simp) (by simp)).1 rfl
  · exact (core_memory_patch_null_stripping
      [("keep", Json.num 1), ("drop", Json.num 2)]
      [("drop", Json.null), ("add", Json.num 3)] "add"
      (by simp) (by simp)).2.1 (Json.num 3) rfl rfl
  · exact (core_memory_patch_null_stripping
      [("keep", Json.num 1), ("drop", Json.num 2)]
      [("drop", Json.null), ("add", Json.num 3)] "keep"
      (by simp) (by simp)).2.2 rfl

theorem coolCandidate_iff {now : Int} {agentId : Option String}
    {minAcc ttl : Int} {t : MemTable} {r : MemRow} :
    coolCandidate now agentId minAcc ttl t r = true ↔
      (r.decayStatus = .active ∧ agentScoped agentId r = true ∧
        r.accessCount < minAcc ∧
        ((r.lastAccessedAt = none ∧ decayCreatedCol t r < now - ttl * msPerDay) ∨
         (∃ l, r.lastAccessedAt = some l ∧ l < now - ttl * msPerDay))) := by
  unfold coolCandidate
  rcases hla : r.lastAccessedAt with _ | l
  · simp only [hla]
    simp
    tauto
  · simp only [hla]
    simp
    tauto

/-- C8: a decay sweep transitions an item from active to cooling exactly
when, under the resolved most-specific policy, `access_count <
min_accesses` and (`last_accessed_at` is null and the created-or-occurred
timestamp is older than `now - ttl_days`, or `last_accessed_at` is older
than `now - ttl_days`), restricted to the sweep's agent scope; when the
resolved policy's `ttl_days` is null (or no policy resolves) the table is
untouched; and an active item with `access_count ≥ min_accesses` is never
moved. -/
theorem decay_active_to_cooling (policies : List DecayPolicy)
    (agentId : Option String) (now minAcc ttl : Int) (t : MemTable)
    (p : DecayPolicy) (rows : List MemRow) (r : MemRow) :
    (resolvePolicy policies (typeNameOf t) agentId = some p → p.ttlDays = none →
      sweepTable policies agentId now t rows = ({}, rows)) ∧
    (resolvePolicy policies (typeNameOf t) agentId = none →
      sweepTable policies agentId now t rows = ({}, rows)) ∧
    (r ∈ rows → sweepCoolStep now agentId minAcc ttl t r ∈
      sweepCoolPhase now agentId minAcc ttl t rows) ∧
    (((sweepCoolStep now agentId minAcc ttl t r).decayStatus = .cooling ∧
        r.decayStatus = .active) ↔
      (r.decayStatus = .active ∧ agentScoped agentId r = true ∧
        r.accessCount < minAcc ∧
        ((r.lastAccessedAt = none ∧ decayCreatedCol t r < now - ttl * msPerDay) ∨
         (∃ l, r.lastAccessedAt = some l ∧ l < now - ttl * msPerDay)))) ∧
    (minAcc ≤ r.accessCount → sweepCoolStep now agentId minAcc ttl t r = r) := by
  refine ⟨?_, ?_, ?_, ?_, ?_⟩
  · intro hres httl
    simp only [sweepTable]
    rw [hres]
    simp only [httl]
  · intro hres
    simp only [sweepTable]
    rw [hres]
  · intro h
    exact List.mem_map_of_mem _ h
  · by_cases hc : coolCandidate now agentId minAcc ttl t r = true
    · have hprops := coolCandidate_iff.mp hc
      unfold sweepCoolStep
      rw [if_pos hc]
      constructor
      · intro _
        exact hprops
      · intro _
        exact ⟨rfl, hprops.1⟩
    · unfold sweepCoolStep
      rw [if_neg hc]
      constructor
      · intro ⟨h1, h2⟩
        rw [h1] at h2
        cases h2
      · intro hprops
        exact absurd (coolCandidate_iff.mpr hprops) hc
  · intro h
    have hc : ¬ coolCandidate now agentId minAcc ttl t r = true := by
      intro hcc
      exact absurd (coolCandidate_iff.mp hcc).2.2.1 (not_lt.mpr h)
    unfold sweepCoolStep
    rw [if_neg hc]

/-- C8, witness: with a global fact policy of 30 TTL days and one stale
never-accessed fact, the cooling condition holds and the step cools the
row, while a well-accessed row is immune. -/
theorem decay_active_to_cooling_witness :
    (((sweepCoolStep 2678400001 none 2 30 .facts rowFactX).decayStatus = .cooling ∧
        rowFactX.decayStatus = .active) ↔
      (rowFactX.decayStatus = .active ∧ agentScoped none rowFactX = true ∧
        rowFactX.accessCount < 2 ∧
        ((rowFactX.lastAccessedAt = none ∧
            decayCreatedCol .facts rowFactX < 2678400001 - 30 * msPerDay) ∨
         (∃ l, rowFactX.lastAccessedAt = some l ∧
            l < 2678400001 - 30 * msPerDay)))) ∧
    ((2 : Int) ≤ 5 →
      sweepCoolStep 2678400001 none 2 30 .facts { rowFactX with accessCount := 5 } =
        { rowFactX with accessCount := 5 }) ∧
    (sweepCoolStep 2678400001 none 2 30 .facts rowFactX).decayStatus = .cooling :=
  ⟨(decay_active_to_cooling [] none 2678400001 2 30 .facts
      { memoryType := "fact" } [] rowFactX).2.2.2.1,
    fun h => (decay_active_to_cooling [] none 2678400001 2 30 .facts
      { memoryType := "fact" } [] { rowFactX with accessCount := 5 }).2.2.2.2 h,
    ((decay_active_to_cooling [] none 2678400001 2 30 .facts
        { memoryType := "fact" } [] rowFactX).2.2.2.1.mpr (by decide)).1⟩

theorem mergeArm_inv {P : String → String → Prop} {upd : Signals → ℚ → Signals}
    {tn : String} (rows : List ArmRow) :
    ∀ (acc : List RecallResult), (∀ x ∈ acc, P x.id x.type) →
      (∀ a ∈ rows, P a.id tn) →
      ∀ x ∈ mergeArm upd tn acc rows, P x.id x.type := by
  induction rows with
  | nil =>
      intro acc hacc _ x hx
      simp only [mergeArm] at hx
      exact hacc x hx
  | cons a rest ih =>
      intro acc hacc hrows x hx
      simp only [mergeArm] at hx
      refine ih _ ?_ (fun b hb => hrows b (List.mem_cons_of_mem _ hb)) x hx
      intro y hy
      split at hy
      · rw [List.mem_map] at hy
        obtain ⟨z, hz, rfl⟩ := hy
        cases hzid : (z.id == a.id)
        · simp only [hzid, Bool.false_eq_true, if_false]
          exact hacc z hz
        · simp only [hzid, if_true]
          exact hacc z hz
      · rw [List.mem_append] at hy
        rcases hy with hy | hy
        · exact hacc y hy
        · rw [List.mem_singleton] at hy
          subst hy
          exact hrows a (List.mem_cons_self a rest)

theorem mergeArm_signals_inv {Q : Signals → Prop} {upd : Signals → ℚ → Signals}
    {tn : String} (hupd : ∀ s v, Q s → Q (upd s v)) (hnew : ∀ v, Q (upd {} v))
    (rows : List ArmRow) :
    ∀ (acc : List RecallResult), (∀ x ∈ acc, Q x.signals) →
      ∀ x ∈ mergeArm upd tn acc rows, Q x.signals := by
  induction rows with
  | nil =>
      intro acc hacc x hx
      simp only [mergeArm] at hx
      exact hacc x hx
  | cons a rest ih =>
      intro acc hacc x hx
      simp only [mergeArm] at hx
      refine ih _ ?_ x hx
      intro y hy
      split at hy
      · rw [List.mem_map] at hy
        obtain ⟨z, hz, rfl⟩ := hy
        cases hzid : (z.id == a.id)
        · simp only [hzid, Bool.false_eq_true, if_false]
          exact hacc z hz
        · simp only [hzid, if_true]
          exact hupd z.signals a.sim (hacc z hz)
      · rw [List.mem_append] at hy
        rcases hy with hy | hy
        · exact hacc y hy
        · rw [List.mem_singleton] at hy
          subst hy
          exact hnew a.sim

theorem semanticArm_src {ops : StoreOps} {q : List ℚ} {db : DB} {t : MemTable}
    {agentId : String} {lim : Nat} :
    ∀ a ∈ semanticArm ops q db t agentId lim,
      ∃ row ∈ db.rowsOf t, row.id = a.id ∧ row.agentId = agentId ∧
        row.decayStatus = .active := by
  intro a ha
  simp only [semanticArm, List.mem_map] at ha
  obtain ⟨r, hr, rfl⟩ := ha
  have hr2 := mem_sortAscBy.mp (List.take_subset _ _ hr)
  rw [List.mem_filter, decide_eq_true_eq] at hr2
  exact ⟨r, hr2.1, rfl, hr2.2.1, hr2.2.2.2⟩

theorem keywordArm_src {ops : StoreOps} {db : DB} {t : MemTable}
    {agentId queryText : String} {lim : Nat} :
    ∀ a ∈ keywordArm ops db t agentId queryText lim,
      ∃ row ∈ db.rowsOf t, row.id = a.id ∧ row.agentId = agentId ∧
        row.decayStatus = .active := by
  intro a ha
  simp only [keywordArm, List.mem_map] at ha
  obtain ⟨r, hr, rfl⟩ := ha
  have hr2 := mem_sortDescBy.mp (List.take_subset _ _ hr)
  rw [List.mem_filter, decide_eq_true_eq] at hr2
  exact ⟨r, hr2.1, rfl, hr2.2.1, hr2.2.2.1⟩

/-- An id-and-type pair originates from an active same-agent row of one of
the searched tables. -/
def rowOk (db : DB) (agentId : String) (tables : List MemTable)
    (id ty : String) : Prop :=
  ∃ t ∈ tables, typeNameOf t = ty ∧
    ∃ row ∈ db.rowsOf t, row.id = id ∧ row.agentId = agentId ∧
      row.decayStatus = .active

theorem recallCandidates_src {ops : StoreOps} {qe : Option (List ℚ)} {db : DB}
    {agentId queryText : String} {lim : Nat} (tables : List MemTable) :
    ∀ x ∈ recallCandidates ops qe db agentId queryText tables lim,
      rowOk db agentId tables x.id x.type := by
  unfold recallCandidates
  suffices h : ∀ (ts : List MemTable) (acc : List RecallResult),
      (∀ t ∈ ts, t ∈ tables) →
      (∀ x ∈ acc, rowOk db agentId tables x.id x.type) →
      ∀ x ∈ ts.foldl (fun acc t =>
        mergeArm setKeyword (typeNameOf t)
          (match qe with
           | some q => mergeArm setSemantic (typeNameOf t) acc
              (semanticArm ops q db t agentId lim)
           | none => acc)
          (keywordArm ops db t agentId queryText lim)) acc,
        rowOk db agentId tables x.id x.type by
    exact fun x hx => h tables [] (fun t ht => ht) (by simp) x hx
  intro ts
  induction ts with
  | nil =>
      intro acc _ hacc x hx
      simp only [List.foldl_nil] at hx
      exact hacc x hx
  | cons t ts ih =>
      intro acc hsub hacc x hx
      simp only [List.foldl_cons] at hx
      have ht : t ∈ tables := hsub t (List.mem_cons_self t ts)
      refine ih _ (fun u hu => hsub u (List.mem_cons_of_mem _ hu)) ?_ x hx
      intro y hy
      refine mergeArm_inv _ _ ?_ ?_ y hy
      · cases qe with
        | none => exact hacc
        | some qv =>
            intro z hz
            refine mergeArm_inv _ _ hacc ?_ z hz
            intro b hb
            obtain ⟨row, hrow, hrid, hragent, hractive⟩ := semanticArm_src b hb
            exact ⟨t, ht, rfl, row, hrow, hrid, hragent, hractive⟩
      · intro b hb
        obtain ⟨row, hrow, hrid, hragent, hractive⟩ := keywordArm_src b hb
        exact ⟨t, ht, rfl, row, hrow, hrid, hragent, hractive⟩

theorem recallCandidates_no_semantic {ops : StoreOps} {db : DB}
    {agentId queryText : String} {lim : Nat} (tables : List MemTable) :
    ∀ x ∈ recallCandidates ops none db agentId queryText tables lim,
      x.signals.semantic = none ∧ x.signals.graphBoost = none := by
  unfold recallCandidates
  suffices h : ∀ (ts : List MemTable) (acc : List RecallResult),
      (∀ x ∈ acc, x.signals.semantic = none ∧ x.signals.graphBoost = none) →
      ∀ x ∈ ts.foldl (fun acc t =>
        mergeArm setKeyword (typeNameOf t) acc
          (keywordArm ops db t agentId queryText lim)) acc,
        x.signals.semantic = none ∧ x.signals.graphBoost = none by
    exact fun x hx => h tables [] (by simp) x hx
  intro ts
  induction ts with
  | nil =>
      intro acc hacc x hx
      simp only [List.foldl_nil] at hx
      exact hacc x hx
  | cons t ts ih =>
      intro acc hacc x hx
      simp only [List.foldl_cons] at hx
      refine ih _ ?_ x hx
      intro y hy
      refine mergeArm_signals_inv (Q := fun s => s.semantic = none ∧ s.graphBoost = none)
        ?_ ?_ _ _ hacc y hy
      · intro s v hs
        exact ⟨hs.1, hs.2⟩
      · intro v
        exact ⟨rfl, rfl⟩

theorem expandTop_origin {db : DB} {agentId : String} {l : List RecallResult} :
    ∀ x ∈ expandTop db agentId l,
      ∃ r ∈ l, x.id = r.id ∧ x.type = r.type ∧ x.score = r.score ∧
        x.signals = r.signals ∧ x.createdAt = r.createdAt := by
  intro x hx
  unfold expandTop at hx
  rw [List.mem_append] at hx
  rcases hx with hx | hx
  · rw [List.mem_map] at hx
    obtain ⟨r, hr, rfl⟩ := hx
    exact ⟨r, List.take_subset _ _ hr, rfl, rfl, rfl, rfl, rfl⟩
  · exact ⟨x, List.drop_subset _ _ hx, rfl, rfl, rfl, rfl, rfl⟩

theorem recallCore_results_origin {ops : StoreOps} {qe : Option (List ℚ)}
    {db : DB} {tables : List MemTable} {agentId queryText : String}
    {lim : Nat} {includeRelated : Bool} {ws wk wr : ℚ} {now : Int} :
    ∀ x ∈ (recallCore ops qe db tables agentId queryText lim includeRelated
        ws wk wr now).results,
      ∃ r ∈ withScores ws wk wr (withRecency now
          (recallCandidates ops qe db agentId queryText tables lim)),
        x.id = r.id ∧ x.type = r.type ∧ x.score = r.score ∧
        x.signals = r.signals ∧ x.createdAt = r.createdAt := by
  intro x hx
  simp only [recallCore] at hx
  split at hx
  · obtain ⟨r, hr, hp⟩ := expandTop_origin x hx
    exact ⟨r, mem_sortDescBy.mp (List.take_subset _ _ hr), hp⟩
  · exact ⟨x, mem_sortDescBy.mp (List.take_subset _ _ hx), rfl, rfl, rfl, rfl, rfl⟩

theorem scored_stage_form {ws wk wr : ℚ} {now : Int} {l : List RecallResult} :
    ∀ r ∈ withScores ws wk wr (withRecency now l),
      r.score = combinedScore ws wk wr r.signals ∧
      r.signals.recency = some (max 0 (1 - Rat.divInt (now - r.createdAt) maxAgeMs)) ∧
      ∃ z ∈ l, r.signals.semantic = z.signals.semantic ∧
        r.signals.graphBoost = z.signals.graphBoost ∧ r.id = z.id ∧ r.type = z.type := by
  intro r hr
  simp only [withScores, withRecency, List.map_map, List.mem_map] at hr
  obtain ⟨z, hz, rfl⟩ := hr
  exact ⟨rfl, rfl, z, hz, rfl, rfl, rfl, rfl⟩

theorem typeNameOf_inj : ∀ t1 t2 : MemTable, typeNameOf t1 = typeNameOf t2 → t1 = t2 := by
  intro t1 t2 h
  cases t1 <;> cases t2 <;> first
    | rfl
    | (exfalso; simp [typeNameOf] at h)

theorem rW_mem : rW ∈ respW.results := by
  simp [respW]

theorem recallW_eval :
    recallHandler opsAlwaysOne none dbOneFact recallParamsW 0 = .ok respW := by
  simp only [recallHandler, recallParamsW, embedQuery]
  rw [if_neg (by simp)]
  simp [recallCore, recallCandidates, keywordArm, semanticArm, mergeArm,
    withRecency, withScores, combinedScore, sortDescBy, insertDescBy,
    expandTop, tablesToSearch, recallTables, typeNameOf, contentColOf,
    recallTimeOf, dbOneFact, rowFactX, opsAlwaysOne, DB.rowsOf, tryEmbed,
    setKeyword, setSemantic, maxAgeMs, respW, rW]

/-- C1: for every result in a recall response, the score equals
`semantic_weight` times the semantic signal (0 if absent) plus
`keyword_weight` times the keyword signal (0 if absent) plus
`recency_weight` times the recency signal (0 if absent) plus 0.1 times the
graph_boost signal (0 if absent), and the recency signal equals
`max(0, 1 - age/maxAge)` with `age = now - created_at_or_occurred_at` and
`maxAge` = 90 days. -/
theorem recall_score_and_recency (ops : StoreOps) (provider : Option Embedder)
    (db : DB) (p : RecallParams) (now : Int) (resp : RecallResponse)
    (h : recallHandler ops provider db p now = .ok resp) :
    ∀ r ∈ resp.results,
      r.score = r.signals.semantic.getD 0 * p.semanticWeight +
        r.signals.keyword.getD 0 * p.keywordWeight +
        r.signals.recency.getD 0 * p.recencyWeight +
        r.signals.graphBoost.getD 0 * mkRat 1 10 ∧
      r.signals.recency = some (max 0 (1 - Rat.divInt (now - r.createdAt) maxAgeMs)) := by
  intro r hr
  unfold recallHandler at h
  split at h
  · simp at h
  · injection h with h'
    subst h'
    obtain ⟨r0, hr0, hid, hty, hscore, hsig, hca⟩ := recallCore_results_origin r hr
    obtain ⟨hs, hrec, _⟩ := scored_stage_form r0 hr0
    constructor
    · rw [hscore, hsig, hs]
      rfl
    · rw [hsig, hca]
      exact hrec

/-- C1, witness: in the concrete keyword-only recall of `dbOneFact`, the
returned result's score and recency obey the formulas. -/
theorem recall_score_and_recency_witness :
    rW.score = rW.signals.semantic.getD 0 * recallParamsW.semanticWeight +
      rW.signals.keyword.getD 0 * recallParamsW.keywordWeight +
      rW.signals.recency.getD 0 * recallParamsW.recencyWeight +
      rW.signals.graphBoost.getD 0 * mkRat 1 10 ∧
    rW.signals.recency = some (max 0 (1 - Rat.divInt (0 - rW.createdAt) maxAgeMs)) :=
  recall_score_and_recency opsAlwaysOne none dbOneFact recallParamsW 0 respW
    recallW_eval rW rW_mem

/-- C9: if no embedder is configured or embedding the recall query fails
(`embedQuery` returns none), recall still returns a well-formed response
(results, total, query, weights) in which `signals.semantic` is undefined
for every result and the score reduces to the keyword and recency terms. -/
theorem recall_lexical_fallback (ops : StoreOps) (provider : Option Embedder)
    (db : DB) (p : RecallParams) (now : Int) (resp : RecallResponse)
    (hq : embedQuery provider p.query = none)
    (h : recallHandler ops provider db p now = .ok resp) :
    resp.total = resp.results.length ∧ resp.query = p.query ∧
    resp.weights = (p.semanticWeight, p.keywordWeight, p.recencyWeight) ∧
    ∀ r ∈ resp.results, r.signals.semantic = none ∧
      r.score = r.signals.keyword.getD 0 * p.keywordWeight +
        r.signals.recency.getD 0 * p.recencyWeight := by
  unfold recallHandler at h
  split at h
  · simp at h
  · injection h with h'
    subst h'
    rw [hq]
    refine ⟨rfl, rfl, rfl, ?_⟩
    intro r hr
    obtain ⟨r0, hr0, hid, hty, hscore, hsig, hca⟩ := recallCore_results_origin r hr
    obtain ⟨hs, hrec, z, hz, hsem, hgb, _, _⟩ := scored_stage_form r0 hr0
    obtain ⟨hzs, hzg⟩ := recallCandidates_no_semantic _ z hz
    have hsem0 : r0.signals.semantic = none := by rw [hsem, hzs]
    have hgb0 : r0.signals.graphBoost = none := by rw [hgb, hzg]
    refine ⟨by rw [hsig, hsem0], ?_⟩
    rw [hscore, hsig, hs]
    unfold combinedScore
    rw [hsem0, hgb0]
    simp

/-- C9, witness: with no provider, the concrete recall of `dbOneFact`
returns the well-formed keyword-only response. -/
theorem recall_lexical_fallback_witness :
    respW.total = respW.results.length ∧ respW.query = recallParamsW.query ∧
    respW.weights = (recallParamsW.semanticWeight, recallParamsW.keywordWeight,
      recallParamsW.recencyWeight) ∧
    ∀ r ∈ respW.results, r.signals.semantic = none ∧
      r.score = r.signals.keyword.getD 0 * recallParamsW.keywordWeight +
        r.signals.recency.getD 0 * recallParamsW.recencyWeight :=
  recall_lexical_fallback opsAlwaysOne none dbOneFact recallParamsW 0 respW
    rfl recallW_eval

/-- C4: every top-level recall result corresponds to an active same-agent
row of one of the searched tables, and every dedup match corresponds to an
active same-agent row of the checked table; consequently, under unique row
ids, an item whose decay_status is cooling or archived is never returned
among recall's initial results nor as a dedup match. -/
theorem recall_dedup_active_only (ops : StoreOps) (provider : Option Embedder)
    (db : DB) (p : RecallParams) (now : Int) (resp : RecallResponse) :
    (recallHandler ops provider db p now = .ok resp →
      ∀ r ∈ resp.results, rowOk db p.agentId (tablesToSearch p.types) r.id r.type) ∧
    (∀ (t : MemTable) (agentId content : String) (m : DuplicateMatch),
      checkDuplicate ops provider db t agentId content = some m →
      ∃ row ∈ db.rowsOf t, row.id = m.id ∧ row.agentId = agentId ∧
        row.decayStatus = .active) ∧
    ((∀ t : MemTable, ((db.rowsOf t).map MemRow.id).Nodup) →
      recallHandler ops provider db p now = .ok resp →
      ∀ r ∈ resp.results, ∀ (t : MemTable) (row : MemRow),
        typeNameOf t = r.type → row ∈ db.rowsOf t → row.id = r.id →
        row.decayStatus = .active) := by
  have hmain : recallHandler ops provider db p now = .ok resp →
      ∀ r ∈ resp.results, rowOk db p.agentId (tablesToSearch p.types) r.id r.type := by
    intro h r hr
    unfold recallHandler at h
    split at h
    · simp at h
    · injection h with h'
      subst h'
      obtain ⟨r0, hr0, hid, hty, _, _, _⟩ := recallCore_results_origin r hr
      obtain ⟨_, _, z, hz, _, _, hzid, hzty⟩ := scored_stage_form r0 hr0
      have hz2 := recallCandidates_src _ z hz
      rw [hid, hty, hzid, hzty]
      exact hz2
  refine ⟨hmain, ?_, ?_⟩
  · intro t agentId content m h
    exact checkDuplicate_some_src h
  · intro hnodup h r hr t row hta hrow hrid
    obtain ⟨t0, ht0, hty0, row0, hrow0, hid0, _, hact0⟩ := hmain h r hr
    have hteq : t = t0 := typeNameOf_inj t t0 (by rw [hta, hty0])
    subst hteq
    have : row = row0 :=
      List.inj_on_of_nodup_map (hnodup t) hrow hrow0 (by rw [hrid, hid0])
    rw [this]
    exact hact0

/-- C4, witness: the concrete recall of `dbOneFact` returns only rows that
are active, and a concrete dedup match is active. -/
theorem recall_dedup_active_only_witness :
    rowOk dbOneFact "a" (tablesToSearch none) rW.id rW.type ∧
    (∃ row ∈ dbOneFact.rowsOf .facts, row.id = "f1" ∧ row.agentId = "a" ∧
      row.decayStatus = .active) :=
  ⟨(recall_dedup_active_only opsAlwaysOne none dbOneFact recallParamsW 0 respW).1
      recallW_eval rW rW_mem,
    (recall_dedup_active_only opsAlwaysOne none dbOneFact recallParamsW 0 respW).2.1
      .facts "a" "x" ⟨"f1", 1, true⟩ (by decide)⟩

/-- C10: calling recall with `types = []` behaves exactly like omitting
`types`: the handler's response is identical, and the searched table set is
all five of `RECALL_TABLES` in both cases. -/
theorem recall_empty_types (ops : StoreOps) (provider : Option Embedder)
    (db : DB) (p : RecallParams) (now : Int) :
    recallHandler ops provider db { p with types := some [] } now =
      recallHandler ops provider db { p with types := none } now ∧
    tablesToSearch (some []) = recallTables ∧
    tablesToSearch none = recallTables :=
  ⟨rfl, rfl, rfl⟩

end HexMem
